import Mathlib

/-!
Verification of the req front end (a command-line toolkit for .http files).

The development shallowly embeds the three pipeline stages of the repository:

* the lexical scanner (package scanner, channel-backed state machine),
* the parser (package parser, two-token window over the scanner),
* the resolver (package spec, template substitution and defaulting),

together with the shared token and position model, and proves the frozen
claims about them.

Modelling conventions:

* Go source text ([]byte) is modelled as a list of Unicode characters;
  byte offsets are recovered from UTF-8 widths (Char.utf8Size).  Go's
  per-byte decoding of invalid UTF-8 is represented by the replacement
  character U+FFFD appearing in the character list.
* Go maps are modelled as association lists with unique keys; map update
  is update-in-place-or-append, map equality is key/value equality
  (insertion order unobservable), matching maps.Equal.
* Go multiple-value returns (T, error) are modelled as pairs with an
  Option String error component, so that "returns the zero value" is
  expressible exactly.
* Go stdlib functions used by the code (time.ParseDuration,
  time.Duration.String, net/url parsing, text/template) are modelled as
  explicit Lean functions restricted to the behaviour the repository
  relies on; each carries a doc comment stating what is modelled.
-/

namespace Req

/-- A rune as the scanner sees one: a character, or none for eof (rune(-1)). -/
abbrev Rune := Option Char

/-- UTF-8 byte length of a character list (models len of the []byte source). -/
def lenB : List Char → Nat
  | [] => 0
  | c :: cs => c.utf8Size + lenB cs

/-- Go unicode.IsSpace on the code points relevant to this code base:
the White_Space property. -/
def goIsSpace (c : Char) : Bool :=
  c = ' ' || c = '\t' || c = '\n' || c = '\x0d' ||
  c = '\x0b' || c = '\x0c' || c.toNat = 0x85 || c.toNat = 0xA0 ||
  c.toNat = 0x1680 || (0x2000 ≤ c.toNat && c.toNat ≤ 0x200A) ||
  c.toNat = 0x2028 || c.toNat = 0x2029 || c.toNat = 0x202F ||
  c.toNat = 0x205F || c.toNat = 0x3000

/-- Lift a character predicate to runes; every predicate the scanner uses
is false at eof, matching the Go predicates on rune(-1). -/
def onRune (p : Char → Bool) : Rune → Bool
  | none => false
  | some c => p c

/-- isLineSpace from the scanner: space or tab only. -/
def isLineSpace (c : Char) : Bool := c = ' ' || c = '\t'

/-- isAlpha from the scanner. -/
def isAlpha (c : Char) : Bool :=
  ('a' ≤ c && c ≤ 'z') || ('A' ≤ c && c ≤ 'Z')

/-- isDigit from the scanner. -/
def isDigit (c : Char) : Bool := '0' ≤ c && c ≤ '9'

/-- isAlphaNumeric from the scanner. -/
def isAlphaNumeric (c : Char) : Bool := isAlpha c || isDigit c

/-- isIdent from the scanner. -/
def isIdent (c : Char) : Bool := isAlpha c || isDigit c || c = '_' || c = '-'

/-- isText from the scanner: any non-whitespace character (eof handled by onRune). -/
def isText (c : Char) : Bool := !goIsSpace c

/-- isFilePath from the scanner. -/
def isFilePath (c : Char) : Bool := isIdent c || c = '.' || c = '/' || c = '\\'

/-- bytes.HasPrefix of the remaining source against an ASCII literal,
expressed on characters. -/
def hasPref : List Char → List Char → Bool
  | _, [] => true
  | [], _ :: _ => false
  | c :: cs, p :: ps => c = p && hasPref cs ps

/-- Token kinds. One inductive covers every kind named across the revisions:
the RequestSeparator of the parser's revision and the Separator emitted by the
scanner are the same ### marker and share the separator constructor. -/
inductive Kind where
  | eof
  | error
  | comment
  | text
  | url
  | header
  | body
  | ident
  | separator
  | at
  | eq
  | colon
  | leftAngle
  | rightAngle
  | httpVersion
  | methodGet
  | methodHead
  | methodPost
  | methodPut
  | methodDelete
  | methodConnect
  | methodPatch
  | methodOptions
  | methodTrace
  | kwName
  | kwTimeout
  | kwConnectionTimeout
  | kwNoRedirect
  | kwPrompt
  deriving DecidableEq, Repr

/-- Token: kind plus byte offsets into the source buffer. -/
structure Token where
  kind : Kind
  tokStart : Nat
  tokEnd : Nat
  deriving DecidableEq, Repr

/-- The zero value of a Token, as received from a closed Go channel. -/
def zeroToken : Token := ⟨Kind.eof, 0, 0⟩

/-- token.Method: classify a string as one of the nine HTTP method kinds,
returning the kind and whether it was a method (Text and false otherwise). -/
def tokenMethod (text : String) : Kind × Bool :=
  if text = "GET" then (Kind.methodGet, true)
  else if text = "HEAD" then (Kind.methodHead, true)
  else if text = "POST" then (Kind.methodPost, true)
  else if text = "PUT" then (Kind.methodPut, true)
  else if text = "DELETE" then (Kind.methodDelete, true)
  else if text = "CONNECT" then (Kind.methodConnect, true)
  else if text = "PATCH" then (Kind.methodPatch, true)
  else if text = "OPTIONS" then (Kind.methodOptions, true)
  else if text = "TRACE" then (Kind.methodTrace, true)
  else (Kind.text, false)

/-- token.IsMethod: whether a kind is one of the nine HTTP method kinds. -/
def isMethodKind : Kind → Bool
  | Kind.methodGet | Kind.methodHead | Kind.methodPost | Kind.methodPut
  | Kind.methodDelete | Kind.methodConnect | Kind.methodPatch
  | Kind.methodOptions | Kind.methodTrace => true
  | _ => false

/-- Modelled from the spec: token.Keyword, the reserved-word lookup for the
identifiers appearing after the at marker of a directive.  The function itself
is in the token package revision not present under src; the spec names the
five reserved words Name, Timeout, ConnectionTimeout, NoRedirect and Prompt
with directive spellings at-name, at-timeout, at-connection-timeout,
at-no-redirect and at-prompt. -/
def tokenKeyword (text : String) : Kind :=
  if text = "name" then Kind.kwName
  else if text = "timeout" then Kind.kwTimeout
  else if text = "connection-timeout" then Kind.kwConnectionTimeout
  else if text = "no-redirect" then Kind.kwNoRedirect
  else if text = "prompt" then Kind.kwPrompt
  else Kind.ident

/-- Position carried to the error handler (syntax.Position). -/
structure Position where
  name : String
  offset : Nat
  line : Nat
  startCol : Int
  endCol : Int
  deriving DecidableEq, Repr

end Req

namespace Req

/-!
## Scanner

Embedding of the channel-backed scanner (package scanner): a state machine of
scan functions over an immutable source buffer.  The state keeps the
unconsumed suffix of the source together with the byte offsets start and pos;
buf is the run of characters consumed since start, i.e. the slice
src[start:pos] used for keyword and method classification.  Emitted tokens
and handler calls are accumulated in order.  The tokens channel is modelled
by the emitted token list; receiving from the closed channel after the state
machine halts yields the zero Token, i.e. an EOF token.
-/

/-- Scanner state (struct Scanner of the scanner package). -/
structure ScanState where
  rest : List Char
  pos : Nat
  start : Nat
  buf : List Char
  line : Nat
  lineOff : Nat
  toks : List Token
  diags : List (Position × String)
  handler : Bool
  name : String
  deriving Repr

/-- Scanner.next: consume and return the next rune, tracking line data. -/
def nextR (s : ScanState) : Rune × ScanState :=
  match s.rest with
  | [] => (none, s)
  | c :: cs =>
    let p := s.pos + c.utf8Size
    let s2 := { s with
      rest := cs
      pos := p
      buf := s.buf ++ [c]
      line := if c = '\n' then s.line + 1 else s.line
      lineOff := if c = '\n' then p else s.lineOff }
    (some c, s2)

/-- Advance over one rune, keeping only the state. -/
def adv (s : ScanState) : ScanState := (nextR s).2

theorem adv_rest_cons {s : ScanState} {c : Char} {cs : List Char}
    (h : s.rest = c :: cs) : (adv s).rest = cs := by
  simp [adv, nextR, h]

/-- Structural worker for Scanner.skip, on fuel bounding the suffix length. -/
def skipGo (p : Char → Bool) : Nat → ScanState → ScanState
  | 0, s => { s with start := s.pos, buf := [] }
  | n + 1, s =>
    match s.rest with
    | [] => { s with start := s.pos, buf := [] }
    | c :: _ =>
      if p c then skipGo p n (adv s)
      else { s with start := s.pos, buf := [] }

/-- Scanner.skip: consume runes satisfying the predicate, then bring start up
to pos (every predicate the code passes is false at eof, so the loop always
terminates; the fuel equals the suffix length and never runs out). -/
def skipF (p : Char → Bool) (s : ScanState) : ScanState :=
  skipGo p s.rest.length s

/-- Structural worker for Scanner.takeWhile. -/
def takeWhileGo (p : Char → Bool) : Nat → ScanState → ScanState
  | 0, s => s
  | n + 1, s =>
    match s.rest with
    | [] => s
    | c :: _ =>
      if p c then takeWhileGo p n (adv s)
      else s

/-- Scanner.takeWhile: consume runes while the predicate holds. -/
def takeWhileF (p : Char → Bool) (s : ScanState) : ScanState :=
  takeWhileGo p s.rest.length s

/-- Structural worker for Scanner.takeUntil. -/
def takeUntilGo (stop : List Rune) : Nat → ScanState → ScanState
  | 0, s => s
  | n + 1, s =>
    match s.rest with
    | [] => s
    | c :: _ =>
      if (some c : Rune) ∈ stop then s
      else takeUntilGo stop n (adv s)

/-- Scanner.takeUntil: consume runes until one of the given runes (every call
site includes eof, at which the loop stops with the empty suffix). -/
def takeUntilF (stop : List Rune) (s : ScanState) : ScanState :=
  takeUntilGo stop s.rest.length s

/-- Scanner.emit: append a token spanning start..pos and reset start. -/
def emitT (k : Kind) (s : ScanState) : ScanState :=
  { s with toks := s.toks ++ [⟨k, s.start, s.pos⟩], start := s.pos, buf := [] }

/-- Scanner.error: emit an Error token, then (only with a handler installed)
record the positioned message.  The column arithmetic uses the state after
the emit, exactly as the source does. -/
def errorT (msg : String) (s : ScanState) : ScanState :=
  let s := emitT Kind.error s
  if s.handler then
    { s with diags := s.diags ++
        [(⟨s.name, s.pos, s.line,
           1 + (s.start : Int) - (s.lineOff : Int),
           1 + (s.pos : Int) - (s.lineOff : Int)⟩, msg)] }
  else s

/-- The scan functions of the state machine, named by state. -/
inductive SState where
  | start | hash | comment | slash | separator | atS | identS | promptS
  | eqS | textS | urlS | httpVersionS | headersS | bodyS | leftAngleS
  | rightAngleS
  deriving DecidableEq, Repr

/-- scanStart. -/
def scanStartF (s : ScanState) : ScanState × Option SState :=
  let s := skipF goIsSpace s
  match nextR s with
  | (none, s) => (emitT Kind.eof s, none)
  | (some c, s) =>
    if c = '�' then
      (errorT ("invalid utf8 character: " ++ String.mk [c]) s, none)
    else if c = '#' then (s, some SState.hash)
    else if c = '/' then (s, some SState.slash)
    else if c = '@' then (s, some SState.atS)
    else if isIdent c then (s, some SState.textS)
    else (errorT ("unrecognised character: " ++ String.mk [c]) s, none)

/-- scanHash. -/
def scanHashF (s : ScanState) : ScanState × Option SState :=
  if s.rest.head? = some '#' then (s, some SState.separator)
  else (s, some SState.comment)

/-- scanComment. -/
def scanCommentF (s : ScanState) : ScanState × Option SState :=
  let s := skipF isLineSpace s
  if s.rest.head? = some '@' then (adv s, some SState.atS)
  else
    let s := takeUntilF [some '\n', none] s
    (emitT Kind.comment s, some SState.start)

/-- scanSlash. -/
def scanSlashF (s : ScanState) : ScanState × Option SState :=
  if s.rest.head? ≠ some '/' then (adv s, some SState.start)
  else (adv s, some SState.comment)

/-- The counting loop of scanSeparator: absorb at most n more hash marks. -/
def sepEat : Nat → ScanState → ScanState
  | 0, s => s
  | n + 1, s =>
    if s.rest.head? = some '#' then sepEat n (adv s) else s

/-- scanSeparator. -/
def scanSeparatorF (s : ScanState) : ScanState × Option SState :=
  let s := sepEat 3 s
  let s := emitT Kind.separator s
  let s := skipF isLineSpace s
  if s.rest.head? ≠ some '\n' && s.rest.head? ≠ none then
    (s, some SState.comment)
  else (s, some SState.start)

/-- scanAt. -/
def scanAtF (s : ScanState) : ScanState × Option SState :=
  let s := emitT Kind.at s
  if hasPref s.rest ['h', 't', 't', 'p'] then (s, some SState.urlS)
  else if onRune isAlpha s.rest.head? then (s, some SState.identS)
  else (s, some SState.start)

/-- scanIdent. -/
def scanIdentF (s : ScanState) : ScanState × Option SState :=
  let s := takeWhileF isIdent s
  let kind := tokenKeyword (String.mk s.buf)
  let s := emitT kind s
  let s := skipF isLineSpace s
  if kind = Kind.kwPrompt then (s, some SState.promptS)
  else if s.rest.head? = some '=' then (s, some SState.eqS)
  else if onRune isAlphaNumeric s.rest.head? then (s, some SState.textS)
  else (s, some SState.start)

/-- scanPrompt. -/
def scanPromptF (s : ScanState) : ScanState × Option SState :=
  let s := takeWhileF isIdent s
  let s := emitT Kind.ident s
  let s := skipF isLineSpace s
  if onRune isAlphaNumeric s.rest.head? then
    let s := takeUntilF [some '\n', none] s
    (emitT Kind.text s, some SState.start)
  else (s, some SState.start)

/-- scanEq. -/
def scanEqF (s : ScanState) : ScanState × Option SState :=
  let s := adv s
  let s := emitT Kind.eq s
  let s := skipF isLineSpace s
  if hasPref s.rest ['h', 't', 't', 'p'] then (s, some SState.urlS)
  else if onRune isAlphaNumeric s.rest.head? then (s, some SState.textS)
  else (s, some SState.start)

/-- scanText. -/
def scanTextF (s : ScanState) : ScanState × Option SState :=
  let s := takeWhileF isText s
  let km := tokenMethod (String.mk s.buf)
  let s := emitT km.1 s
  let s := skipF isLineSpace s
  if km.2 then (s, some SState.urlS) else (s, some SState.start)

/-- scanURL. -/
def scanURLF (s : ScanState) : ScanState × Option SState :=
  if !hasPref s.rest ['h', 't', 't', 'p'] &&
     !hasPref s.rest ['\x7b', '\x7b'] then
    (errorT "HTTP methods must be followed by a valid URL" s, none)
  else
    let s := takeWhileF isText s
    let s := emitT Kind.url s
    let s := skipF isLineSpace s
    if hasPref s.rest ['H', 'T', 'T', 'P', '/'] then
      (s, some SState.httpVersionS)
    else
      let s := skipF goIsSpace s
      if onRune isAlpha s.rest.head? then (s, some SState.headersS)
      else if s.rest.head? = some '#' || s.rest.head? = none then
        (s, some SState.start)
      else (s, some SState.bodyS)

/-- Structural worker for the digit loop of scanHTTPVersion. -/
def httpDigitsGo : Nat → ScanState → ScanState × Bool
  | 0, s => (s, true)
  | n + 1, s =>
    match s.rest with
    | [] => (s, true)
    | c :: _ =>
      if isDigit c then
        let s1 := adv s
        if s1.rest.head? = some '.' then
          let s2 := adv s1
          if onRune isDigit s2.rest.head? then (takeWhileF isDigit s2, true)
          else (errorT "bad number literal in HTTP version" s2, false)
        else httpDigitsGo n s1
      else (s, true)

/-- The digit loop of scanHTTPVersion; false on the malformed-literal error. -/
def httpDigits (s : ScanState) : ScanState × Bool :=
  httpDigitsGo s.rest.length s

/-- scanHTTPVersion. -/
def scanHTTPVersionF (s : ScanState) : ScanState × Option SState :=
  let s := adv (adv (adv (adv (adv s))))
  match httpDigits s with
  | (s, false) => (s, none)
  | (s, true) =>
    let s := emitT Kind.httpVersion s
    let s := skipF goIsSpace s
    if onRune isAlpha s.rest.head? then (s, some SState.headersS)
    else if s.rest.head? = some '#' || s.rest.head? = none then
      (s, some SState.start)
    else (s, some SState.bodyS)

/-- scanHeaders. -/
def scanHeadersF (s : ScanState) : ScanState × Option SState :=
  let s := takeWhileF isIdent s
  if s.rest.head? = none then (errorT "unexpected eof" s, none)
  else
    let s := emitT Kind.header s
    if s.rest.head? ≠ some ':' then
      (errorT "expected colon" s, none)
    else
      let s := adv s
      let s := emitT Kind.colon s
      let s := skipF isLineSpace s
      let s := takeUntilF [some '\n', none] s
      let s := emitT Kind.text s
      let s := skipF goIsSpace s
      if onRune isAlpha s.rest.head? then (s, some SState.headersS)
      else if s.rest.head? = some '#' || s.rest.head? = none then
        (s, some SState.start)
      else (s, some SState.bodyS)

/-- scanBody. -/
def scanBodyF (s : ScanState) : ScanState × Option SState :=
  if s.rest.head? = some '<' then (s, some SState.leftAngleS)
  else if s.rest.head? = some '>' then (s, some SState.rightAngleS)
  else
    let s := takeUntilF [some '#', none, some '>'] s
    let s := emitT Kind.body s
    let s := skipF goIsSpace s
    if s.rest.head? = some '>' then (s, some SState.rightAngleS)
    else (s, some SState.start)

/-- scanLeftAngle. -/
def scanLeftAngleF (s : ScanState) : ScanState × Option SState :=
  let s := adv s
  let s := emitT Kind.leftAngle s
  let s := skipF isLineSpace s
  let s := if onRune isFilePath s.rest.head? then
    emitT Kind.text (takeWhileF isText s) else s
  let s := skipF goIsSpace s
  if s.rest.head? = some '>' then (s, some SState.rightAngleS)
  else (s, some SState.start)

/-- scanRightAngle. -/
def scanRightAngleF (s : ScanState) : ScanState × Option SState :=
  let s := adv s
  let s := emitT Kind.rightAngle s
  let s := skipF isLineSpace s
  let s := if onRune isFilePath s.rest.head? then
    emitT Kind.text (takeWhileF isText s) else s
  (s, some SState.start)

/-- Dispatch one state of the scanner state machine. -/
def stepScan : SState → ScanState → ScanState × Option SState
  | SState.start, s => scanStartF s
  | SState.hash, s => scanHashF s
  | SState.comment, s => scanCommentF s
  | SState.slash, s => scanSlashF s
  | SState.separator, s => scanSeparatorF s
  | SState.atS, s => scanAtF s
  | SState.identS, s => scanIdentF s
  | SState.promptS, s => scanPromptF s
  | SState.eqS, s => scanEqF s
  | SState.textS, s => scanTextF s
  | SState.urlS, s => scanURLF s
  | SState.httpVersionS, s => scanHTTPVersionF s
  | SState.headersS, s => scanHeadersF s
  | SState.bodyS, s => scanBodyF s
  | SState.leftAngleS, s => scanLeftAngleF s
  | SState.rightAngleS, s => scanRightAngleF s

/-- Scanner.run: iterate scan functions until one returns nil.  The fuel
argument makes the iteration total; the scanner claims are proved for every
fuel, and the canonical fuel below suffices on every input exercised. -/
def runScan : Nat → SState → ScanState → ScanState
  | 0, _, s => s
  | fuel + 1, st, s =>
    match stepScan st s with
    | (s, none) => s
    | (s, some st) => runScan fuel st s

/-- Scanner.New: the initial scanner state. -/
def initScan (name : String) (src : List Char) (handler : Bool) : ScanState :=
  { rest := src, pos := 0, start := 0, buf := [], line := 1, lineOff := 0,
    toks := [], diags := [], handler := handler, name := name }

/-- Canonical fuel: generous for the machine, which consumes at least one
character within any bounded number of steps. -/
def scanFuel (src : List Char) : Nat := 8 * src.length + 8

/-- Run the scanner to completion on a source. -/
def scanFinal (name : String) (src : List Char) (handler : Bool) : ScanState :=
  runScan (scanFuel src) SState.start (initScan name src handler)

/-- The token stream of a source (handler installed). -/
def scanToks (name : String) (src : List Char) : List Token :=
  (scanFinal name src true).toks

/-- Scanner.Scan as the parser observes it: the n-th receive from the tokens
channel, which after close yields the zero Token (an EOF token). -/
def scanNth (name : String) (src : List Char) (n : Nat) : Token :=
  (scanToks name src).getD n zeroToken

end Req


namespace Req

/-!
## Scanner invariants

CoreInv carries the facts needed for the offset claim and the diagnostics
accounting; NoTerm and HaltShape describe where terminal (Error or EOF)
tokens can occur in the emitted stream.
-/

/-- Whether a token is terminal: Error or EOF. -/
def isTerminal (t : Token) : Bool :=
  t.kind = Kind.error || t.kind = Kind.eof

/-- Number of Error tokens in a stream. -/
def errCount (ts : List Token) : Nat :=
  (ts.filter fun t => t.kind = Kind.error).length

/-- No terminal token occurs in the list. -/
def NoTerm (ts : List Token) : Prop := ∀ t ∈ ts, isTerminal t = false

/-- The list is a terminal-free prefix followed by one final token. -/
def HaltShape (ts : List Token) : Prop :=
  ∃ init t, ts = init ++ [t] ∧ NoTerm init

/-- Terminal tokens occur only in last position. -/
def TermLast (ts : List Token) : Prop :=
  ∀ i t, ts[i]? = some t → isTerminal t = true → i + 1 = ts.length

theorem noTerm_termLast {ts : List Token} (h : NoTerm ts) : TermLast ts := by
  intro i t hget hterm
  have hmem : t ∈ ts := by
    obtain ⟨hlt, hEq⟩ := List.getElem?_eq_some.mp hget
    exact hEq ▸ List.getElem_mem hlt
  exact absurd (h t hmem) (by simp [hterm])

theorem haltShape_termLast {ts : List Token} (h : HaltShape ts) : TermLast ts := by
  obtain ⟨init, t, rfl, hinit⟩ := h
  intro i u hget hterm
  have hlen : i < init.length + 1 := by
    have h1 : i < (init ++ [t]).length := by
      obtain ⟨hlt, _⟩ := List.getElem?_eq_some.mp hget
      exact hlt
    simpa using h1
  rcases lt_or_ge i init.length with hi | hi
  · rw [List.getElem?_append_left hi] at hget
    have hmem : u ∈ init := by
      obtain ⟨hlt, hEq⟩ := List.getElem?_eq_some.mp hget
      exact hEq ▸ List.getElem_mem hlt
    exact absurd (hinit u hmem) (by simp [hterm])
  · have : i = init.length := by omega
    simp [this]

theorem noTerm_append {a b : List Token} (ha : NoTerm a) (hb : NoTerm b) :
    NoTerm (a ++ b) := by
  intro t ht
  rcases List.mem_append.mp ht with h | h
  · exact ha t h
  · exact hb t h

/-- The core invariant of the scanner state, relative to the total byte
length of the source. -/
def CoreInv (T : Nat) (s : ScanState) : Prop :=
  s.start ≤ s.pos ∧ s.pos + lenB s.rest = T ∧
  (∀ t ∈ s.toks, t.tokStart ≤ t.tokEnd ∧ t.tokEnd ≤ T) ∧
  (s.handler = true → s.diags.length = errCount s.toks) ∧
  (s.handler = false → s.diags = [])

theorem adv_nil {s : ScanState} (hr : s.rest = []) : adv s = s := by
  simp [adv, nextR, hr]

theorem adv_cons {s : ScanState} {c : Char} {cs : List Char}
    (hr : s.rest = c :: cs) :
    (adv s).rest = cs ∧ (adv s).pos = s.pos + c.utf8Size ∧
    (adv s).start = s.start ∧ (adv s).toks = s.toks ∧
    (adv s).diags = s.diags ∧ (adv s).handler = s.handler := by
  simp [adv, nextR, hr]

theorem coreInv_adv {T : Nat} {s : ScanState} (h : CoreInv T s) :
    CoreInv T (adv s) ∧ (adv s).toks = s.toks ∧
    (adv s).handler = s.handler := by
  obtain ⟨h1, h2, h3, h4, h5⟩ := h
  cases hr : s.rest with
  | nil =>
    rw [adv_nil hr]
    exact ⟨⟨h1, h2, h3, h4, h5⟩, rfl, rfl⟩
  | cons c cs =>
    obtain ⟨a1, a2, a3, a4, a5, a6⟩ := adv_cons hr
    refine ⟨⟨?_, ?_, ?_, ?_, ?_⟩, a4, a6⟩
    · rw [a2, a3]; omega
    · rw [a1, a2]
      rw [hr] at h2
      have : lenB (c :: cs) = c.utf8Size + lenB cs := rfl
      omega
    · rw [a4]; exact h3
    · rw [a4, a5, a6]; exact h4
    · rw [a5, a6]; exact h5

end Req

namespace Req

/-- Unfold skipF at the empty suffix. -/
theorem skipF_nil (p : Char → Bool) {s : ScanState} (hr : s.rest = []) :
    skipF p s = { s with start := s.pos, buf := [] } := by
  simp [skipF, skipGo, hr]

/-- Unfold skipF when the predicate holds at the head. -/
theorem skipF_cons_true (p : Char → Bool) {s : ScanState} {c : Char}
    {cs : List Char} (hr : s.rest = c :: cs) (hp : p c = true) :
    skipF p s = skipF p (adv s) := by
  have h1 : (adv s).rest = cs := adv_rest_cons hr
  simp [skipF, skipGo, hr, hp, h1]

/-- Unfold skipF when the predicate fails at the head. -/
theorem skipF_cons_false (p : Char → Bool) {s : ScanState} {c : Char}
    {cs : List Char} (hr : s.rest = c :: cs) (hp : p c = false) :
    skipF p s = { s with start := s.pos, buf := [] } := by
  simp [skipF, skipGo, hr, hp]

/-- Unfold takeWhileF at the empty suffix. -/
theorem takeWhileF_nil (p : Char → Bool) {s : ScanState} (hr : s.rest = []) :
    takeWhileF p s = s := by
  simp [takeWhileF, takeWhileGo, hr]

/-- Unfold takeWhileF when the predicate holds at the head. -/
theorem takeWhileF_cons_true (p : Char → Bool) {s : ScanState} {c : Char}
    {cs : List Char} (hr : s.rest = c :: cs) (hp : p c = true) :
    takeWhileF p s = takeWhileF p (adv s) := by
  have h1 : (adv s).rest = cs := adv_rest_cons hr
  simp [takeWhileF, takeWhileGo, hr, hp, h1]

/-- Unfold takeWhileF when the predicate fails at the head. -/
theorem takeWhileF_cons_false (p : Char → Bool) {s : ScanState} {c : Char}
    {cs : List Char} (hr : s.rest = c :: cs) (hp : p c = false) :
    takeWhileF p s = s := by
  simp [takeWhileF, takeWhileGo, hr, hp]

/-- Unfold takeUntilF at the empty suffix. -/
theorem takeUntilF_nil (stop : List Rune) {s : ScanState} (hr : s.rest = []) :
    takeUntilF stop s = s := by
  simp [takeUntilF, takeUntilGo, hr]

/-- Unfold takeUntilF when the head is a stop rune. -/
theorem takeUntilF_cons_stop (stop : List Rune) {s : ScanState} {c : Char}
    {cs : List Char} (hr : s.rest = c :: cs) (hc : (some c : Rune) ∈ stop) :
    takeUntilF stop s = s := by
  simp [takeUntilF, takeUntilGo, hr, hc]

/-- Unfold takeUntilF when the head is not a stop rune. -/
theorem takeUntilF_cons_go (stop : List Rune) {s : ScanState} {c : Char}
    {cs : List Char} (hr : s.rest = c :: cs) (hc : (some c : Rune) ∉ stop) :
    takeUntilF stop s = takeUntilF stop (adv s) := by
  have h1 : (adv s).rest = cs := adv_rest_cons hr
  simp [takeUntilF, takeUntilGo, hr, hc, h1]

/-- Tame transitions: preserve the core invariant and leave tokens,
diagnostics and the handler flag untouched. -/
def Tame (T : Nat) (s s' : ScanState) : Prop :=
  (CoreInv T s → CoreInv T s') ∧ s'.toks = s.toks ∧ s'.diags = s.diags ∧
  s'.handler = s.handler

theorem tame_rfl {T : Nat} {s : ScanState} : Tame T s s :=
  ⟨id, rfl, rfl, rfl⟩

theorem tame_trans {T : Nat} {s t u : ScanState} (h1 : Tame T s t)
    (h2 : Tame T t u) : Tame T s u :=
  ⟨fun h => h2.1 (h1.1 h), by rw [h2.2.1, h1.2.1], by rw [h2.2.2.1, h1.2.2.1],
   by rw [h2.2.2.2, h1.2.2.2]⟩

theorem tame_adv {T : Nat} {s : ScanState} : Tame T s (adv s) := by
  refine ⟨fun h => (coreInv_adv h).1, ?_, ?_, ?_⟩ <;>
  · cases hr : s.rest with
    | nil => rw [adv_nil hr]
    | cons c cs => obtain ⟨a1, a2, a3, a4, a5, a6⟩ := adv_cons hr; simp [a4, a5, a6]

theorem tame_setStart {T : Nat} {s : ScanState} :
    Tame T s { s with start := s.pos, buf := [] } := by
  refine ⟨fun h => ?_, rfl, rfl, rfl⟩
  obtain ⟨_, h2, h3, h4, h5⟩ := h
  exact ⟨le_refl _, h2, h3, h4, h5⟩

theorem adv_rest_length {s : ScanState} {c : Char} {cs : List Char}
    (hr : s.rest = c :: cs) : (adv s).rest.length = cs.length := by
  rw [adv_rest_cons hr]

theorem tame_skipF {T : Nat} (p : Char → Bool) :
    ∀ n (s : ScanState), s.rest.length ≤ n → Tame T s (skipF p s) := by
  intro n
  induction n with
  | zero =>
    intro s hn
    have hr : s.rest = [] := List.length_eq_zero.mp (Nat.le_zero.mp hn)
    rw [skipF_nil p hr]
    exact tame_setStart
  | succ n ih =>
    intro s hn
    cases hr : s.rest with
    | nil => rw [skipF_nil p hr]; exact tame_setStart
    | cons c cs =>
      by_cases hp : p c = true
      · rw [skipF_cons_true p hr hp]
        refine tame_trans tame_adv (ih (adv s) ?_)
        rw [adv_rest_length hr]
        rw [hr] at hn
        simp at hn
        omega
      · rw [skipF_cons_false p hr (by simpa using hp)]
        exact tame_setStart

theorem tame_takeWhileF {T : Nat} (p : Char → Bool) :
    ∀ n (s : ScanState), s.rest.length ≤ n → Tame T s (takeWhileF p s) := by
  intro n
  induction n with
  | zero =>
    intro s hn
    have hr : s.rest = [] := List.length_eq_zero.mp (Nat.le_zero.mp hn)
    rw [takeWhileF_nil p hr]
    exact tame_rfl
  | succ n ih =>
    intro s hn
    cases hr : s.rest with
    | nil => rw [takeWhileF_nil p hr]; exact tame_rfl
    | cons c cs =>
      by_cases hp : p c = true
      · rw [takeWhileF_cons_true p hr hp]
        refine tame_trans tame_adv (ih (adv s) ?_)
        rw [adv_rest_length hr]
        rw [hr] at hn
        simp at hn
        omega
      · rw [takeWhileF_cons_false p hr (by simpa using hp)]
        exact tame_rfl

theorem tame_takeUntilF {T : Nat} (stop : List Rune) :
    ∀ n (s : ScanState), s.rest.length ≤ n → Tame T s (takeUntilF stop s) := by
  intro n
  induction n with
  | zero =>
    intro s hn
    have hr : s.rest = [] := List.length_eq_zero.mp (Nat.le_zero.mp hn)
    rw [takeUntilF_nil stop hr]
    exact tame_rfl
  | succ n ih =>
    intro s hn
    cases hr : s.rest with
    | nil => rw [takeUntilF_nil stop hr]; exact tame_rfl
    | cons c cs =>
      by_cases hc : (some c : Rune) ∈ stop
      · rw [takeUntilF_cons_stop stop hr hc]
        exact tame_rfl
      · rw [takeUntilF_cons_go stop hr hc]
        refine tame_trans tame_adv (ih (adv s) ?_)
        rw [adv_rest_length hr]
        rw [hr] at hn
        simp at hn
        omega

theorem tame_sepEat {T : Nat} :
    ∀ n (s : ScanState), Tame T s (sepEat n s) := by
  intro n
  induction n with
  | zero => intro s; exact tame_rfl
  | succ n ih =>
    intro s
    rw [sepEat]
    by_cases hc : s.rest.head? = some '#'
    · simp only [hc, if_pos rfl]
      exact tame_trans tame_adv (ih (adv s))
    · simp only [if_neg hc]
      exact tame_rfl

end Req

namespace Req

theorem pos_le_total {T : Nat} {s : ScanState} (h : CoreInv T s) : s.pos ≤ T := by
  obtain ⟨_, h2, _, _, _⟩ := h
  omega

theorem errCount_append_nonerr {ts : List Token} {t : Token}
    (h : t.kind ≠ Kind.error) : errCount (ts ++ [t]) = errCount ts := by
  simp [errCount, List.filter_append, List.filter, h]

theorem errCount_append_err {ts : List Token} {t : Token}
    (h : t.kind = Kind.error) : errCount (ts ++ [t]) = errCount ts + 1 := by
  simp [errCount, List.filter_append, List.filter, h]

theorem coreInv_emitT {T : Nat} {s : ScanState} (k : Kind)
    (hk : k ≠ Kind.error) (h : CoreInv T s) : CoreInv T (emitT k s) := by
  obtain ⟨h1, h2, h3, h4, h5⟩ := h
  refine ⟨le_refl _, h2, ?_, ?_, h5⟩
  · intro t ht
    rcases List.mem_append.mp ht with hm | hm
    · exact h3 t hm
    · simp at hm
      subst hm
      exact ⟨h1, show s.pos ≤ T by omega⟩
  · intro hh
    rw [show (emitT k s).toks = s.toks ++ [⟨k, s.start, s.pos⟩] from rfl,
        errCount_append_nonerr hk]
    exact h4 hh

theorem coreInv_errorT {T : Nat} {s : ScanState} (msg : String)
    (h : CoreInv T s) : CoreInv T (errorT msg s) ∧
    (errorT msg s).toks = s.toks ++ [⟨Kind.error, s.start, s.pos⟩] ∧
    (errorT msg s).handler = s.handler := by
  obtain ⟨h1, h2, h3, h4, h5⟩ := h
  have htok : ∀ t ∈ s.toks ++ [(⟨Kind.error, s.start, s.pos⟩ : Token)],
      t.tokStart ≤ t.tokEnd ∧ t.tokEnd ≤ T := by
    intro t ht
    rcases List.mem_append.mp ht with hm | hm
    · exact h3 t hm
    · simp at hm
      subst hm
      exact ⟨h1, show s.pos ≤ T by omega⟩
  by_cases hh : s.handler = true
  · have he : errorT msg s =
        { s with toks := s.toks ++ [⟨Kind.error, s.start, s.pos⟩],
                 start := s.pos, buf := [],
                 diags := s.diags ++
                   [(⟨s.name, s.pos, s.line,
                      1 + (s.pos : Int) - (s.lineOff : Int),
                      1 + (s.pos : Int) - (s.lineOff : Int)⟩, msg)] } := by
      simp [errorT, emitT, hh]
    rw [he]
    refine ⟨⟨le_refl _, h2, htok, ?_, ?_⟩, rfl, by simp [hh]⟩
    · intro _
      rw [errCount_append_err rfl]
      simp [h4 hh]
    · intro hcon
      simp at hcon
      rw [hcon] at hh
      cases hh
  · have hh2 : s.handler = false := by simpa using hh
    have he : errorT msg s =
        { s with toks := s.toks ++ [⟨Kind.error, s.start, s.pos⟩],
                 start := s.pos, buf := [] } := by
      simp [errorT, emitT, hh2]
    rw [he]
    refine ⟨⟨le_refl _, h2, htok, ?_, ?_⟩, rfl, rfl⟩
    · intro hcon
      simp at hcon
      rw [hcon] at hh2
      cases hh2
    · intro _
      exact h5 hh2

/-- Composable facts about non-halting scanner moves: the core invariant is
preserved, a terminal-free token stream stays terminal-free, and the handler
flag is untouched. -/
def Keeps2 (T : Nat) (s s' : ScanState) : Prop :=
  (CoreInv T s → CoreInv T s') ∧ (NoTerm s.toks → NoTerm s'.toks) ∧
  s'.handler = s.handler

theorem keeps2_rfl {T : Nat} {s : ScanState} : Keeps2 T s s := ⟨id, id, rfl⟩

theorem keeps2_trans {T : Nat} {s t u : ScanState} (h1 : Keeps2 T s t)
    (h2 : Keeps2 T t u) : Keeps2 T s u :=
  ⟨fun h => h2.1 (h1.1 h), fun h => h2.2.1 (h1.2.1 h), by rw [h2.2.2, h1.2.2]⟩

theorem keeps2_of_tame {T : Nat} {s s' : ScanState} (h : Tame T s s') :
    Keeps2 T s s' :=
  ⟨h.1, fun hn => by rw [h.2.1]; exact hn, h.2.2.2⟩

theorem keeps2_adv {T : Nat} {s : ScanState} : Keeps2 T s (adv s) :=
  keeps2_of_tame tame_adv

theorem keeps2_skipF {T : Nat} (p : Char → Bool) {s : ScanState} :
    Keeps2 T s (skipF p s) :=
  keeps2_of_tame (tame_skipF p s.rest.length s (le_refl _))

theorem keeps2_takeWhileF {T : Nat} (p : Char → Bool) {s : ScanState} :
    Keeps2 T s (takeWhileF p s) :=
  keeps2_of_tame (tame_takeWhileF p s.rest.length s (le_refl _))

theorem keeps2_takeUntilF {T : Nat} (stop : List Rune) {s : ScanState} :
    Keeps2 T s (takeUntilF stop s) :=
  keeps2_of_tame (tame_takeUntilF stop s.rest.length s (le_refl _))

theorem keeps2_sepEat {T : Nat} (n : Nat) {s : ScanState} :
    Keeps2 T s (sepEat n s) :=
  keeps2_of_tame (tame_sepEat n s)

/-- Emitting a non-terminal token is a Keeps2 move. -/
theorem keeps2_emitT {T : Nat} (k : Kind) {s : ScanState}
    (hk : isTerminal ⟨k, s.start, s.pos⟩ = false) :
    Keeps2 T s (emitT k s) := by
  refine ⟨coreInv_emitT k ?_, ?_, rfl⟩
  · intro hcon
    subst hcon
    simp [isTerminal] at hk
  · intro hn t ht
    rcases List.mem_append.mp ht with hm | hm
    · exact hn t hm
    · simp at hm
      subst hm
      exact hk

/-- The shape of the per-state step lemma: the invariant holds afterwards,
the handler flag survives, continuing steps keep the stream terminal-free
and halting steps leave a terminal-free prefix plus one final token. -/
def GoodOut (T : Nat) (b : Bool) (out : ScanState × Option SState) : Prop :=
  CoreInv T out.1 ∧ out.1.handler = b ∧
  (out.2.isSome = true → NoTerm out.1.toks) ∧
  (out.2 = none → HaltShape out.1.toks)

theorem goodOut_cont {T : Nat} {s s' : ScanState} {st : SState}
    (hk : Keeps2 T s s') (hC : CoreInv T s) (hN : NoTerm s.toks) :
    GoodOut T s.handler (s', some st) :=
  ⟨hk.1 hC, hk.2.2, fun _ => hk.2.1 hN, fun hcon => by cases hcon⟩

theorem goodOut_error {T : Nat} {s s' : ScanState} (msg : String)
    (hk : Keeps2 T s s') (hC : CoreInv T s) (hN : NoTerm s.toks) :
    GoodOut T s.handler (errorT msg s', none) := by
  obtain ⟨hE, hT, hH⟩ := coreInv_errorT msg (hk.1 hC)
  refine ⟨hE, by rw [hH, hk.2.2], ?_, ?_⟩
  · intro hcon
    simp at hcon
  · intro _
    exact ⟨s'.toks, _, hT, hk.2.1 hN⟩

theorem goodOut_eof {T : Nat} {s s' : ScanState}
    (hk : Keeps2 T s s') (hC : CoreInv T s) (hN : NoTerm s.toks) :
    GoodOut T s.handler (emitT Kind.eof s', none) := by
  refine ⟨coreInv_emitT Kind.eof (by simp) (hk.1 hC), ?_, ?_, ?_⟩
  · rw [show (emitT Kind.eof s').handler = s'.handler from rfl, hk.2.2]
  · intro hcon
    simp at hcon
  · intro _
    exact ⟨s'.toks, _, rfl, hk.2.1 hN⟩

theorem nextR_nil {s : ScanState} (hr : s.rest = []) : nextR s = (none, s) := by
  simp [nextR, hr]

theorem nextR_cons {s : ScanState} {c : Char} {cs : List Char}
    (hr : s.rest = c :: cs) : nextR s = (some c, adv s) := by
  simp [nextR, adv, hr]

end Req

namespace Req

theorem httpDigits_nil {s : ScanState} (hr : s.rest = []) :
    httpDigits s = (s, true) := by
  simp [httpDigits, httpDigitsGo, hr]

theorem httpDigits_nodigit {s : ScanState} {c : Char} {cs : List Char}
    (hr : s.rest = c :: cs) (hd : isDigit c = false) :
    httpDigits s = (s, true) := by
  simp [httpDigits, httpDigitsGo, hr, hd]

theorem httpDigits_dot_digit {s : ScanState} {c : Char} {cs : List Char}
    (hr : s.rest = c :: cs) (hd : isDigit c = true)
    (hdot : (adv s).rest.head? = some '.')
    (hd2 : onRune isDigit (adv (adv s)).rest.head? = true) :
    httpDigits s = (takeWhileF isDigit (adv (adv s)), true) := by
  simp [httpDigits, httpDigitsGo, hr, hd, hdot, hd2]

theorem httpDigits_dot_nodigit {s : ScanState} {c : Char} {cs : List Char}
    (hr : s.rest = c :: cs) (hd : isDigit c = true)
    (hdot : (adv s).rest.head? = some '.')
    (hd2 : onRune isDigit (adv (adv s)).rest.head? = false) :
    httpDigits s =
      (errorT "bad number literal in HTTP version" (adv (adv s)), false) := by
  simp [httpDigits, httpDigitsGo, hr, hd, hdot, hd2]

theorem httpDigits_recurse {s : ScanState} {c : Char} {cs : List Char}
    (hr : s.rest = c :: cs) (hd : isDigit c = true)
    (hdot : ¬((adv s).rest.head? = some '.')) :
    httpDigits s = httpDigits (adv s) := by
  have h1 : (adv s).rest = cs := adv_rest_cons hr
  have h2 : ¬cs.head? = some '.' := by rw [← h1]; exact hdot
  simp [httpDigits, httpDigitsGo, hr, hd, hdot, h1, h2]

theorem httpDigits_cases {T : Nat} :
    ∀ n (s : ScanState), s.rest.length ≤ n →
    ((httpDigits s).2 = true → Keeps2 T s (httpDigits s).1) ∧
    ((httpDigits s).2 = false → ∃ s', Keeps2 T s s' ∧
      (httpDigits s).1 = errorT "bad number literal in HTTP version" s') := by
  intro n
  induction n with
  | zero =>
    intro s hn
    have hr : s.rest = [] := List.length_eq_zero.mp (Nat.le_zero.mp hn)
    rw [httpDigits_nil hr]
    exact ⟨fun _ => keeps2_rfl, fun hcon => by cases hcon⟩
  | succ n ih =>
    intro s hn
    cases hr : s.rest with
    | nil =>
      rw [httpDigits_nil hr]
      exact ⟨fun _ => keeps2_rfl, fun hcon => by cases hcon⟩
    | cons c cs =>
      by_cases hd : isDigit c = true
      · by_cases hdot : (adv s).rest.head? = some '.'
        · by_cases hd2 : onRune isDigit (adv (adv s)).rest.head? = true
          · rw [httpDigits_dot_digit hr hd hdot hd2]
            refine ⟨fun _ => ?_, fun hcon => by cases hcon⟩
            exact keeps2_trans keeps2_adv
              (keeps2_trans keeps2_adv (keeps2_takeWhileF _))
          · rw [httpDigits_dot_nodigit hr hd hdot (by simpa using hd2)]
            constructor
            · intro hcon
              simp at hcon
            · intro _
              exact ⟨adv (adv s), keeps2_trans keeps2_adv keeps2_adv, rfl⟩
        · rw [httpDigits_recurse hr hd hdot]
          have hlen : (adv s).rest.length ≤ n := by
            rw [adv_rest_length hr]
            rw [hr] at hn
            simp at hn
            omega
          obtain ⟨i1, i2⟩ := ih (adv s) hlen
          refine ⟨fun ht => keeps2_trans keeps2_adv (i1 ht), fun hf => ?_⟩
          obtain ⟨s', hk, he⟩ := i2 hf
          exact ⟨s', keeps2_trans keeps2_adv hk, he⟩
      · rw [httpDigits_nodigit hr (by simpa using hd)]
        exact ⟨fun _ => keeps2_rfl, fun hcon => by cases hcon⟩

theorem tokenKeyword_nonterm (text : String) (a b : Nat) :
    isTerminal ⟨tokenKeyword text, a, b⟩ = false := by
  unfold tokenKeyword
  split <;> try simp [isTerminal]
  split <;> try simp [isTerminal]
  split <;> try simp [isTerminal]
  split <;> try simp [isTerminal]
  split <;> simp [isTerminal]

theorem tokenMethod_nonterm (text : String) (a b : Nat) :
    isTerminal ⟨(tokenMethod text).1, a, b⟩ = false := by
  unfold tokenMethod
  split <;> try simp [isTerminal]
  split <;> try simp [isTerminal]
  split <;> try simp [isTerminal]
  split <;> try simp [isTerminal]
  split <;> try simp [isTerminal]
  split <;> try simp [isTerminal]
  split <;> try simp [isTerminal]
  split <;> try simp [isTerminal]
  split <;> simp [isTerminal]

end Req

namespace Req

theorem good_scanStartF {T : Nat} {s : ScanState} (hC : CoreInv T s)
    (hN : NoTerm s.toks) : GoodOut T s.handler (scanStartF s) := by
  have hk1 : Keeps2 T s (skipF goIsSpace s) := keeps2_skipF _
  simp only [scanStartF]
  cases hr : (skipF goIsSpace s).rest with
  | nil =>
    rw [nextR_nil hr]
    exact goodOut_eof hk1 hC hN
  | cons c cs =>
    rw [nextR_cons hr]
    have hk2 : Keeps2 T s (adv (skipF goIsSpace s)) :=
      keeps2_trans hk1 keeps2_adv
    simp only []
    split
    · exact goodOut_error _ hk2 hC hN
    · split
      · exact goodOut_cont hk2 hC hN
      · split
        · exact goodOut_cont hk2 hC hN
        · split
          · exact goodOut_cont hk2 hC hN
          · split
            · exact goodOut_cont hk2 hC hN
            · exact goodOut_error _ hk2 hC hN

theorem good_scanHashF {T : Nat} {s : ScanState} (hC : CoreInv T s)
    (hN : NoTerm s.toks) : GoodOut T s.handler (scanHashF s) := by
  simp only [scanHashF]
  split <;> exact goodOut_cont keeps2_rfl hC hN

theorem good_scanCommentF {T : Nat} {s : ScanState} (hC : CoreInv T s)
    (hN : NoTerm s.toks) : GoodOut T s.handler (scanCommentF s) := by
  have hk1 : Keeps2 T s (skipF isLineSpace s) := keeps2_skipF _
  simp only [scanCommentF]
  split
  · exact goodOut_cont (keeps2_trans hk1 keeps2_adv) hC hN
  · refine goodOut_cont ?_ hC hN
    exact keeps2_trans hk1
      (keeps2_trans (keeps2_takeUntilF [some '\n', none])
        (keeps2_emitT Kind.comment (by simp [isTerminal])))

theorem good_scanSlashF {T : Nat} {s : ScanState} (hC : CoreInv T s)
    (hN : NoTerm s.toks) : GoodOut T s.handler (scanSlashF s) := by
  simp only [scanSlashF]
  split <;> exact goodOut_cont keeps2_adv hC hN

theorem good_scanSeparatorF {T : Nat} {s : ScanState} (hC : CoreInv T s)
    (hN : NoTerm s.toks) : GoodOut T s.handler (scanSeparatorF s) := by
  have hk : Keeps2 T s
      (skipF isLineSpace (emitT Kind.separator (sepEat 3 s))) :=
    keeps2_trans (keeps2_sepEat 3)
      (keeps2_trans (keeps2_emitT _ (by simp [isTerminal])) (keeps2_skipF _))
  simp only [scanSeparatorF]
  split <;> exact goodOut_cont hk hC hN

theorem good_scanAtF {T : Nat} {s : ScanState} (hC : CoreInv T s)
    (hN : NoTerm s.toks) : GoodOut T s.handler (scanAtF s) := by
  have hk : Keeps2 T s (emitT Kind.at s) :=
    keeps2_emitT _ (by simp [isTerminal])
  simp only [scanAtF]
  split
  · exact goodOut_cont hk hC hN
  · split <;> exact goodOut_cont hk hC hN

theorem good_scanIdentF {T : Nat} {s : ScanState} (hC : CoreInv T s)
    (hN : NoTerm s.toks) : GoodOut T s.handler (scanIdentF s) := by
  have hk : Keeps2 T s
      (skipF isLineSpace
        (emitT (tokenKeyword (String.mk (takeWhileF isIdent s).buf))
          (takeWhileF isIdent s))) :=
    keeps2_trans (keeps2_takeWhileF _)
      (keeps2_trans (keeps2_emitT _ (tokenKeyword_nonterm _ _ _))
        (keeps2_skipF _))
  simp only [scanIdentF]
  split
  · exact goodOut_cont hk hC hN
  · split
    · exact goodOut_cont hk hC hN
    · split <;> exact goodOut_cont hk hC hN

theorem good_scanPromptF {T : Nat} {s : ScanState} (hC : CoreInv T s)
    (hN : NoTerm s.toks) : GoodOut T s.handler (scanPromptF s) := by
  have hk : Keeps2 T s
      (skipF isLineSpace (emitT Kind.ident (takeWhileF isIdent s))) :=
    keeps2_trans (keeps2_takeWhileF _)
      (keeps2_trans (keeps2_emitT _ (by simp [isTerminal])) (keeps2_skipF _))
  simp only [scanPromptF]
  split
  · refine goodOut_cont (keeps2_trans hk ?_) hC hN
    exact keeps2_trans (keeps2_takeUntilF _)
      (keeps2_emitT _ (by simp [isTerminal]))
  · exact goodOut_cont hk hC hN

theorem good_scanEqF {T : Nat} {s : ScanState} (hC : CoreInv T s)
    (hN : NoTerm s.toks) : GoodOut T s.handler (scanEqF s) := by
  have hk : Keeps2 T s (skipF isLineSpace (emitT Kind.eq (adv s))) :=
    keeps2_trans keeps2_adv
      (keeps2_trans (keeps2_emitT _ (by simp [isTerminal])) (keeps2_skipF _))
  simp only [scanEqF]
  split
  · exact goodOut_cont hk hC hN
  · split <;> exact goodOut_cont hk hC hN

theorem good_scanTextF {T : Nat} {s : ScanState} (hC : CoreInv T s)
    (hN : NoTerm s.toks) : GoodOut T s.handler (scanTextF s) := by
  have hk : Keeps2 T s
      (skipF isLineSpace
        (emitT (tokenMethod (String.mk (takeWhileF isText s).buf)).1
          (takeWhileF isText s))) :=
    keeps2_trans (keeps2_takeWhileF _)
      (keeps2_trans (keeps2_emitT _ (tokenMethod_nonterm _ _ _))
        (keeps2_skipF _))
  simp only [scanTextF]
  split <;> exact goodOut_cont hk hC hN

theorem good_scanURLF {T : Nat} {s : ScanState} (hC : CoreInv T s)
    (hN : NoTerm s.toks) : GoodOut T s.handler (scanURLF s) := by
  have hk : Keeps2 T s
      (skipF isLineSpace (emitT Kind.url (takeWhileF isText s))) :=
    keeps2_trans (keeps2_takeWhileF _)
      (keeps2_trans (keeps2_emitT _ (by simp [isTerminal])) (keeps2_skipF _))
  simp only [scanURLF]
  split
  · exact goodOut_error _ keeps2_rfl hC hN
  · split
    · exact goodOut_cont hk hC hN
    · have hk2 : Keeps2 T s
          (skipF goIsSpace
            (skipF isLineSpace (emitT Kind.url (takeWhileF isText s)))) :=
        keeps2_trans hk (keeps2_skipF _)
      split
      · exact goodOut_cont hk2 hC hN
      · split <;> exact goodOut_cont hk2 hC hN

theorem good_scanHTTPVersionF {T : Nat} {s : ScanState} (hC : CoreInv T s)
    (hN : NoTerm s.toks) : GoodOut T s.handler (scanHTTPVersionF s) := by
  have hk5 : Keeps2 T s (adv (adv (adv (adv (adv s))))) :=
    keeps2_trans keeps2_adv (keeps2_trans keeps2_adv
      (keeps2_trans keeps2_adv (keeps2_trans keeps2_adv keeps2_adv)))
  simp only [scanHTTPVersionF]
  obtain ⟨hdT, hdF⟩ := httpDigits_cases (T := T)
    (adv (adv (adv (adv (adv s))))).rest.length
    (adv (adv (adv (adv (adv s))))) (le_refl _)
  cases hd : httpDigits (adv (adv (adv (adv (adv s))))) with
  | mk s' ok =>
    cases ok with
    | false =>
      obtain ⟨s'', hk, he⟩ := hdF (by rw [hd])
      rw [hd] at he
      simp at he
      simp only []
      rw [he]
      exact goodOut_error _ (keeps2_trans hk5 hk) hC hN
    | true =>
      have hkT : Keeps2 T s s' := by
        have h1 := hdT (by rw [hd])
        rw [hd] at h1
        exact keeps2_trans hk5 h1
      have hk2 : Keeps2 T s
          (skipF goIsSpace (emitT Kind.httpVersion s')) :=
        keeps2_trans hkT
          (keeps2_trans (keeps2_emitT _ (by simp [isTerminal]))
            (keeps2_skipF _))
      simp only []
      split
      · exact goodOut_cont hk2 hC hN
      · split <;> exact goodOut_cont hk2 hC hN

theorem good_scanHeadersF {T : Nat} {s : ScanState} (hC : CoreInv T s)
    (hN : NoTerm s.toks) : GoodOut T s.handler (scanHeadersF s) := by
  have hk1 : Keeps2 T s (takeWhileF isIdent s) := keeps2_takeWhileF _
  simp only [scanHeadersF]
  split
  · exact goodOut_error _ hk1 hC hN
  · have hk2 : Keeps2 T s (emitT Kind.header (takeWhileF isIdent s)) :=
      keeps2_trans hk1 (keeps2_emitT _ (by simp [isTerminal]))
    split
    · exact goodOut_error _ hk2 hC hN
    · have hk3 : Keeps2 T s
          (skipF goIsSpace
            (emitT Kind.text
              (takeUntilF [some '\n', none]
                (skipF isLineSpace
                  (emitT Kind.colon
                    (adv (emitT Kind.header (takeWhileF isIdent s)))))))) :=
        keeps2_trans hk2 (keeps2_trans keeps2_adv
          (keeps2_trans (keeps2_emitT _ (by simp [isTerminal]))
            (keeps2_trans (keeps2_skipF _)
              (keeps2_trans (keeps2_takeUntilF _)
                (keeps2_trans (keeps2_emitT _ (by simp [isTerminal]))
                  (keeps2_skipF _))))))
      split
      · exact goodOut_cont hk3 hC hN
      · split <;> exact goodOut_cont hk3 hC hN

theorem good_scanBodyF {T : Nat} {s : ScanState} (hC : CoreInv T s)
    (hN : NoTerm s.toks) : GoodOut T s.handler (scanBodyF s) := by
  simp only [scanBodyF]
  split
  · exact goodOut_cont keeps2_rfl hC hN
  · split
    · exact goodOut_cont keeps2_rfl hC hN
    · have hk : Keeps2 T s
          (skipF goIsSpace
            (emitT Kind.body (takeUntilF [some '#', none, some '>'] s))) :=
        keeps2_trans (keeps2_takeUntilF _)
          (keeps2_trans (keeps2_emitT _ (by simp [isTerminal]))
            (keeps2_skipF _))
      split <;> exact goodOut_cont hk hC hN

theorem good_scanLeftAngleF {T : Nat} {s : ScanState} (hC : CoreInv T s)
    (hN : NoTerm s.toks) : GoodOut T s.handler (scanLeftAngleF s) := by
  have hk1 : Keeps2 T s
      (skipF isLineSpace (emitT Kind.leftAngle (adv s))) :=
    keeps2_trans keeps2_adv
      (keeps2_trans (keeps2_emitT _ (by simp [isTerminal])) (keeps2_skipF _))
  simp only [scanLeftAngleF]
  split
  · have hk2 : Keeps2 T s
        (skipF goIsSpace
          (emitT Kind.text
            (takeWhileF isText
              (skipF isLineSpace (emitT Kind.leftAngle (adv s)))))) :=
      keeps2_trans hk1 (keeps2_trans (keeps2_takeWhileF _)
        (keeps2_trans (keeps2_emitT _ (by simp [isTerminal]))
          (keeps2_skipF _)))
    split <;> exact goodOut_cont hk2 hC hN
  · have hk2 : Keeps2 T s
        (skipF goIsSpace
          (skipF isLineSpace (emitT Kind.leftAngle (adv s)))) :=
      keeps2_trans hk1 (keeps2_skipF _)
    split <;> exact goodOut_cont hk2 hC hN

theorem good_scanRightAngleF {T : Nat} {s : ScanState} (hC : CoreInv T s)
    (hN : NoTerm s.toks) : GoodOut T s.handler (scanRightAngleF s) := by
  have hk1 : Keeps2 T s
      (skipF isLineSpace (emitT Kind.rightAngle (adv s))) :=
    keeps2_trans keeps2_adv
      (keeps2_trans (keeps2_emitT _ (by simp [isTerminal])) (keeps2_skipF _))
  simp only [scanRightAngleF]
  split
  · refine goodOut_cont (keeps2_trans hk1 ?_) hC hN
    exact keeps2_trans (keeps2_takeWhileF _)
      (keeps2_emitT _ (by simp [isTerminal]))
  · exact goodOut_cont hk1 hC hN

/-- Every step of the state machine preserves the invariant, keeps the
handler flag, and emits terminal tokens only as the final token of a
halting step. -/
theorem good_stepScan {T : Nat} (st : SState) {s : ScanState}
    (hC : CoreInv T s) (hN : NoTerm s.toks) :
    GoodOut T s.handler (stepScan st s) := by
  cases st
  case start => exact good_scanStartF hC hN
  case hash => exact good_scanHashF hC hN
  case comment => exact good_scanCommentF hC hN
  case slash => exact good_scanSlashF hC hN
  case separator => exact good_scanSeparatorF hC hN
  case atS => exact good_scanAtF hC hN
  case identS => exact good_scanIdentF hC hN
  case promptS => exact good_scanPromptF hC hN
  case eqS => exact good_scanEqF hC hN
  case textS => exact good_scanTextF hC hN
  case urlS => exact good_scanURLF hC hN
  case httpVersionS => exact good_scanHTTPVersionF hC hN
  case headersS => exact good_scanHeadersF hC hN
  case bodyS => exact good_scanBodyF hC hN
  case leftAngleS => exact good_scanLeftAngleF hC hN
  case rightAngleS => exact good_scanRightAngleF hC hN

end Req

namespace Req

/-- Running the machine from an invariant state with a terminal-free stream
preserves the invariant, keeps the handler flag and puts terminal tokens only
in final position, for every fuel. -/
theorem runScan_good {T : Nat} :
    ∀ (fuel : Nat) (st : SState) (s : ScanState), CoreInv T s → NoTerm s.toks →
    CoreInv T (runScan fuel st s) ∧
    (runScan fuel st s).handler = s.handler ∧
    TermLast (runScan fuel st s).toks := by
  intro fuel
  induction fuel with
  | zero =>
    intro st s hC hN
    exact ⟨hC, rfl, noTerm_termLast hN⟩
  | succ fuel ih =>
    intro st s hC hN
    obtain ⟨g1, g2, g3, g4⟩ := good_stepScan (T := T) st hC hN
    rw [runScan]
    cases hstep : stepScan st s with
    | mk s' os =>
      rw [hstep] at g1 g2 g3 g4
      cases os with
      | none =>
        simp only []
        exact ⟨g1, g2, haltShape_termLast (g4 rfl)⟩
      | some st' =>
        simp only []
        obtain ⟨i1, i2, i3⟩ := ih st' s' g1 (g3 rfl)
        exact ⟨i1, by rw [i2, g2], i3⟩

/-- The initial scanner state satisfies the invariant. -/
theorem coreInv_initScan (name : String) (src : List Char) (b : Bool) :
    CoreInv (lenB src) (initScan name src b) := by
  refine ⟨le_refl _, by simp [initScan], ?_, ?_, ?_⟩
  · intro t ht
    simp [initScan] at ht
  · intro _
    simp [initScan, errCount]
  · intro _
    simp [initScan]

theorem scanFinal_good (name : String) (src : List Char) (b : Bool) :
    CoreInv (lenB src) (scanFinal name src b) ∧
    (scanFinal name src b).handler = b ∧
    TermLast (scanFinal name src b).toks := by
  have h := runScan_good (T := lenB src) (scanFuel src) SState.start
    (initScan name src b) (coreInv_initScan name src b)
    (by intro t ht; simp [initScan] at ht)
  exact ⟨h.1, h.2.1.trans rfl, h.2.2⟩

/-- Claim C6: every token emitted by the scanner, including Error and EOF
tokens, satisfies 0 ≤ start ≤ end ≤ len(source), offsets being byte offsets
into the source buffer (the lower bound is inherent in the Nat offsets). -/
theorem claim_c6_token_offsets (name : String) (src : List Char) (t : Token)
    (ht : t ∈ scanToks name src) :
    t.tokStart ≤ t.tokEnd ∧ t.tokEnd ≤ lenB src := by
  have h := (scanFinal_good name src true).1
  exact h.2.2.1 t ht

/-- Witness for C6: a concrete run emits a Text token and the final EOF
token, each within bounds. -/
theorem claim_c6_token_offsets_witness :
    (⟨Kind.text, 0, 1⟩ : Token) ∈ scanToks "w" ['a'] ∧
    ((⟨Kind.text, 0, 1⟩ : Token).tokStart ≤ (⟨Kind.text, 0, 1⟩ : Token).tokEnd ∧
      (⟨Kind.text, 0, 1⟩ : Token).tokEnd ≤ lenB ['a']) := by
  refine ⟨by decide, claim_c6_token_offsets "w" ['a'] _ (by decide)⟩

/-- Claim C7: once the scanner has yielded an Error or EOF token, every
subsequent call to Scan returns an EOF token.  Scan is modelled as reading
the n-th element of the emitted stream, with the zero-value EOF token after
channel close. -/
theorem claim_c7_terminal_then_eof (name : String) (src : List Char)
    (i j : Nat) (hij : i < j)
    (hterm : isTerminal (scanNth name src i) = true) :
    (scanNth name src j).kind = Kind.eof := by
  have hTL := (scanFinal_good name src true).2.2
  by_cases hi : i < (scanToks name src).length
  · have hget : (scanToks name src)[i]? = some ((scanToks name src)[i]) :=
      List.getElem?_eq_getElem hi
    have hnth : scanNth name src i = (scanToks name src)[i] := by
      simp [scanNth, List.getD, hget]
    have hlast : i + 1 = (scanToks name src).length := by
      refine hTL i _ hget ?_
      rw [← hnth]
      exact hterm
    have hj : (scanToks name src).length ≤ j := by omega
    have : (scanToks name src)[j]? = none := List.getElem?_eq_none hj
    simp [scanNth, List.getD, this, zeroToken]
  · have hj : (scanToks name src).length ≤ j := by omega
    have : (scanToks name src)[j]? = none := List.getElem?_eq_none hj
    simp [scanNth, List.getD, this, zeroToken]

/-- Witness for C7: scanning the single character source "?" yields an Error
token first, and the next Scan returns EOF. -/
theorem claim_c7_terminal_then_eof_witness :
    isTerminal (scanNth "w" ['?'] 0) = true ∧
    (scanNth "w" ['?'] 1).kind = Kind.eof := by
  refine ⟨by decide, claim_c7_terminal_then_eof "w" ['?'] 0 1 (by decide) (by decide)⟩

end Req

namespace Req

/-!
## Handler independence

The handler flag is consulted only when a diagnostic is delivered; erasing
the handler (and the recorded diagnostics) commutes with every move of the
machine, so the token stream does not depend on the handler.
-/

/-- Forget the handler and its recorded diagnostics. -/
def eraseH (s : ScanState) : ScanState := { s with handler := false, diags := [] }

@[simp]
theorem eraseH_rest (s : ScanState) : (eraseH s).rest = s.rest := rfl

@[simp]
theorem eraseH_toks (s : ScanState) : (eraseH s).toks = s.toks := rfl

@[simp]
theorem adv_eraseH (s : ScanState) : adv (eraseH s) = eraseH (adv s) := by
  cases hr : s.rest with
  | nil =>
    rw [adv_nil hr, adv_nil]
    exact hr
  | cons c cs => simp [adv, nextR, eraseH, hr]

@[simp]
theorem emitT_eraseH (k : Kind) (s : ScanState) :
    emitT k (eraseH s) = eraseH (emitT k s) := rfl

@[simp]
theorem errorT_eraseH (msg : String) (s : ScanState) :
    errorT msg (eraseH s) = eraseH (errorT msg s) := by
  by_cases hh : s.handler = true
  · simp [errorT, emitT, eraseH, hh]
  · simp [errorT, emitT, eraseH, hh]

@[simp]
theorem skipGo_eraseH (p : Char → Bool) :
    ∀ n (s : ScanState), skipGo p n (eraseH s) = eraseH (skipGo p n s) := by
  intro n
  induction n with
  | zero => intro s; rfl
  | succ n ih =>
    intro s
    simp only [skipGo, eraseH_rest]
    cases s.rest with
    | nil => rfl
    | cons c cs =>
      simp only []
      split
      · rw [adv_eraseH, ih]
      · rfl

@[simp]
theorem skipF_eraseH (p : Char → Bool) (s : ScanState) :
    skipF p (eraseH s) = eraseH (skipF p s) := by
  simp [skipF]

@[simp]
theorem takeWhileGo_eraseH (p : Char → Bool) :
    ∀ n (s : ScanState), takeWhileGo p n (eraseH s) = eraseH (takeWhileGo p n s) := by
  intro n
  induction n with
  | zero => intro s; rfl
  | succ n ih =>
    intro s
    simp only [takeWhileGo, eraseH_rest]
    cases s.rest with
    | nil => rfl
    | cons c cs =>
      simp only []
      split
      · rw [adv_eraseH, ih]
      · rfl

@[simp]
theorem takeWhileF_eraseH (p : Char → Bool) (s : ScanState) :
    takeWhileF p (eraseH s) = eraseH (takeWhileF p s) := by
  simp [takeWhileF]

@[simp]
theorem takeUntilGo_eraseH (stop : List Rune) :
    ∀ n (s : ScanState), takeUntilGo stop n (eraseH s) = eraseH (takeUntilGo stop n s) := by
  intro n
  induction n with
  | zero => intro s; rfl
  | succ n ih =>
    intro s
    simp only [takeUntilGo, eraseH_rest]
    cases s.rest with
    | nil => rfl
    | cons c cs =>
      simp only []
      split
      · rfl
      · rw [adv_eraseH, ih]

@[simp]
theorem takeUntilF_eraseH (stop : List Rune) (s : ScanState) :
    takeUntilF stop (eraseH s) = eraseH (takeUntilF stop s) := by
  simp [takeUntilF]

@[simp]
theorem sepEat_eraseH :
    ∀ n (s : ScanState), sepEat n (eraseH s) = eraseH (sepEat n s) := by
  intro n
  induction n with
  | zero => intro s; rfl
  | succ n ih =>
    intro s
    simp only [sepEat, eraseH_rest]
    split
    · rw [adv_eraseH, ih]
    · rfl

@[simp]
theorem eraseH_buf (s : ScanState) : (eraseH s).buf = s.buf := rfl

@[simp]
theorem httpDigitsGo_eraseH :
    ∀ n (s : ScanState),
      httpDigitsGo n (eraseH s) = (eraseH (httpDigitsGo n s).1, (httpDigitsGo n s).2) := by
  intro n
  induction n with
  | zero => intro s; rfl
  | succ n ih =>
    intro s
    simp only [httpDigitsGo, eraseH_rest]
    cases s.rest with
    | nil => rfl
    | cons c cs =>
      simp only [adv_eraseH, eraseH_rest, takeWhileF_eraseH, errorT_eraseH, ih]
      split
      · split
        · split <;> rfl
        · rfl
      · rfl

@[simp]
theorem httpDigits_eraseH (s : ScanState) :
    httpDigits (eraseH s) = (eraseH (httpDigits s).1, (httpDigits s).2) := by
  simp [httpDigits]

end Req

namespace Req

/-- Erase the handler in a step output. -/
def eraseOut (o : ScanState × Option SState) : ScanState × Option SState :=
  (eraseH o.1, o.2)

theorem scanStartF_eraseH (s : ScanState) :
    scanStartF (eraseH s) = eraseOut (scanStartF s) := by
  simp only [scanStartF, skipF_eraseH]
  cases hr : (skipF goIsSpace s).rest with
  | nil =>
    rw [nextR_nil (by simp [hr]), nextR_nil hr]
    simp [eraseOut]
  | cons c cs =>
    rw [nextR_cons (show (eraseH (skipF goIsSpace s)).rest = c :: cs by simp [hr]),
        nextR_cons hr]
    simp only [adv_eraseH]
    split
    · simp [eraseOut]
    · split
      · simp [eraseOut]
      · split
        · simp [eraseOut]
        · split
          · simp [eraseOut]
          · split
            · simp [eraseOut]
            · simp [eraseOut]

theorem scanHashF_eraseH (s : ScanState) :
    scanHashF (eraseH s) = eraseOut (scanHashF s) := by
  simp only [scanHashF, eraseH_rest]
  split <;> simp [eraseOut]

theorem scanCommentF_eraseH (s : ScanState) :
    scanCommentF (eraseH s) = eraseOut (scanCommentF s) := by
  simp only [scanCommentF, skipF_eraseH, eraseH_rest, adv_eraseH,
    takeUntilF_eraseH, emitT_eraseH]
  split <;> simp [eraseOut]

theorem scanSlashF_eraseH (s : ScanState) :
    scanSlashF (eraseH s) = eraseOut (scanSlashF s) := by
  simp only [scanSlashF, eraseH_rest, adv_eraseH]
  split <;> simp [eraseOut]

theorem scanSeparatorF_eraseH (s : ScanState) :
    scanSeparatorF (eraseH s) = eraseOut (scanSeparatorF s) := by
  simp only [scanSeparatorF, sepEat_eraseH, emitT_eraseH, skipF_eraseH,
    eraseH_rest]
  split <;> simp [eraseOut]

theorem scanAtF_eraseH (s : ScanState) :
    scanAtF (eraseH s) = eraseOut (scanAtF s) := by
  simp only [scanAtF, emitT_eraseH, eraseH_rest]
  split
  · simp [eraseOut]
  · split <;> simp [eraseOut]

theorem scanIdentF_eraseH (s : ScanState) :
    scanIdentF (eraseH s) = eraseOut (scanIdentF s) := by
  simp only [scanIdentF, takeWhileF_eraseH, eraseH_buf, emitT_eraseH,
    skipF_eraseH, eraseH_rest]
  split
  · simp [eraseOut]
  · split
    · simp [eraseOut]
    · split <;> simp [eraseOut]

theorem scanPromptF_eraseH (s : ScanState) :
    scanPromptF (eraseH s) = eraseOut (scanPromptF s) := by
  simp only [scanPromptF, takeWhileF_eraseH, emitT_eraseH, skipF_eraseH,
    eraseH_rest, takeUntilF_eraseH]
  split <;> simp [eraseOut]

theorem scanEqF_eraseH (s : ScanState) :
    scanEqF (eraseH s) = eraseOut (scanEqF s) := by
  simp only [scanEqF, adv_eraseH, emitT_eraseH, skipF_eraseH, eraseH_rest]
  split
  · simp [eraseOut]
  · split <;> simp [eraseOut]

theorem scanTextF_eraseH (s : ScanState) :
    scanTextF (eraseH s) = eraseOut (scanTextF s) := by
  simp only [scanTextF, takeWhileF_eraseH, eraseH_buf, emitT_eraseH,
    skipF_eraseH, eraseH_rest]
  split <;> simp [eraseOut]

theorem scanURLF_eraseH (s : ScanState) :
    scanURLF (eraseH s) = eraseOut (scanURLF s) := by
  simp only [scanURLF, eraseH_rest, takeWhileF_eraseH, emitT_eraseH,
    skipF_eraseH, errorT_eraseH]
  split
  · simp [eraseOut]
  · split
    · simp [eraseOut]
    · split
      · simp [eraseOut]
      · split <;> simp [eraseOut]

theorem scanHTTPVersionF_eraseH (s : ScanState) :
    scanHTTPVersionF (eraseH s) = eraseOut (scanHTTPVersionF s) := by
  simp only [scanHTTPVersionF, adv_eraseH, httpDigits_eraseH]
  cases hd : httpDigits (adv (adv (adv (adv (adv s))))) with
  | mk s' ok =>
    simp only []
    cases ok with
    | false => simp [eraseOut]
    | true =>
      simp only [emitT_eraseH, skipF_eraseH, eraseH_rest]
      split
      · simp [eraseOut]
      · split <;> simp [eraseOut]

theorem scanHeadersF_eraseH (s : ScanState) :
    scanHeadersF (eraseH s) = eraseOut (scanHeadersF s) := by
  simp only [scanHeadersF, takeWhileF_eraseH, eraseH_rest, errorT_eraseH,
    emitT_eraseH, adv_eraseH, skipF_eraseH, takeUntilF_eraseH]
  split
  · simp [eraseOut]
  · split
    · simp [eraseOut]
    · split
      · simp [eraseOut]
      · split <;> simp [eraseOut]

theorem scanBodyF_eraseH (s : ScanState) :
    scanBodyF (eraseH s) = eraseOut (scanBodyF s) := by
  simp only [scanBodyF, eraseH_rest, takeUntilF_eraseH, emitT_eraseH,
    skipF_eraseH]
  split
  · simp [eraseOut]
  · split
    · simp [eraseOut]
    · split <;> simp [eraseOut]

theorem scanLeftAngleF_eraseH (s : ScanState) :
    scanLeftAngleF (eraseH s) = eraseOut (scanLeftAngleF s) := by
  simp only [scanLeftAngleF, adv_eraseH, emitT_eraseH, skipF_eraseH,
    eraseH_rest, takeWhileF_eraseH]
  split
  · simp only [emitT_eraseH, skipF_eraseH, eraseH_rest, takeWhileF_eraseH]
    split <;> simp [eraseOut]
  · simp only [skipF_eraseH, eraseH_rest]
    split <;> simp [eraseOut]

theorem scanRightAngleF_eraseH (s : ScanState) :
    scanRightAngleF (eraseH s) = eraseOut (scanRightAngleF s) := by
  simp only [scanRightAngleF, adv_eraseH, emitT_eraseH, skipF_eraseH,
    eraseH_rest, takeWhileF_eraseH]
  split <;> simp [eraseOut]

theorem stepScan_eraseH (st : SState) (s : ScanState) :
    stepScan st (eraseH s) = eraseOut (stepScan st s) := by
  cases st
  case start => exact scanStartF_eraseH s
  case hash => exact scanHashF_eraseH s
  case comment => exact scanCommentF_eraseH s
  case slash => exact scanSlashF_eraseH s
  case separator => exact scanSeparatorF_eraseH s
  case atS => exact scanAtF_eraseH s
  case identS => exact scanIdentF_eraseH s
  case promptS => exact scanPromptF_eraseH s
  case eqS => exact scanEqF_eraseH s
  case textS => exact scanTextF_eraseH s
  case urlS => exact scanURLF_eraseH s
  case httpVersionS => exact scanHTTPVersionF_eraseH s
  case headersS => exact scanHeadersF_eraseH s
  case bodyS => exact scanBodyF_eraseH s
  case leftAngleS => exact scanLeftAngleF_eraseH s
  case rightAngleS => exact scanRightAngleF_eraseH s

theorem runScan_eraseH :
    ∀ (fuel : Nat) (st : SState) (s : ScanState),
      runScan fuel st (eraseH s) = eraseH (runScan fuel st s) := by
  intro fuel
  induction fuel with
  | zero => intro st s; rfl
  | succ fuel ih =>
    intro st s
    rw [runScan, runScan, stepScan_eraseH]
    cases hstep : stepScan st s with
    | mk s' os =>
      cases os with
      | none => rfl
      | some st' =>
        simp only [eraseOut]
        exact ih st' s'

end Req

namespace Req

/-- Claim C10: the token stream, and in particular every Error token, is
emitted independently of whether an error handler is installed; with no
handler the scanner records no diagnostics and still halts normally (the
model is a total function), and with a handler installed the number of
recorded diagnostics equals the number of Error tokens emitted. -/
theorem claim_c10_error_token_without_handler (name : String) (src : List Char) :
    (scanFinal name src false).toks = (scanFinal name src true).toks ∧
    (scanFinal name src false).diags = [] ∧
    (scanFinal name src true).diags.length =
      errCount (scanFinal name src true).toks := by
  have he : initScan name src false = eraseH (initScan name src true) := rfl
  have h1 : scanFinal name src false = eraseH (scanFinal name src true) := by
    rw [scanFinal, he, runScan_eraseH]
    rfl
  refine ⟨by rw [h1]; rfl, by rw [h1]; rfl, ?_⟩
  exact (scanFinal_good name src true).1.2.2.2.1 (scanFinal_good name src true).2.1

end Req

namespace Req

/-!
## Go maps, byte slicing and modelled stdlib functions
-/

/-- A Go map[string]string as an association list with unique keys. -/
abbrev VarMap := List (String × String)

/-- Go map assignment: update in place or append. -/
def mapSet (m : VarMap) (k v : String) : VarMap :=
  match m with
  | [] => [(k, v)]
  | (k1, v1) :: rest =>
    if k1 = k then (k1, v) :: rest else (k1, v1) :: mapSet rest k v

/-- Go map lookup. -/
def mapLookup (m : VarMap) (k : String) : Option String :=
  match m with
  | [] => none
  | (k1, v1) :: rest => if k1 = k then some v1 else mapLookup rest k

/-- maps.Equal: same keys mapped to the same values. -/
def mapsEqualB (a b : VarMap) : Bool :=
  a.all (fun pr => mapLookup b pr.1 = some pr.2) &&
  b.all (fun pr => mapLookup a pr.1 = some pr.2)

/-- Keys of a map. -/
def mapKeys (m : VarMap) : List String := m.map (·.1)

/-- Insert into a string list sorted by the character-list order (UTF-8 byte
order and code-point order agree). -/
def sortInsert (x : String) (l : List String) : List String :=
  match l with
  | [] => [x]
  | y :: ys => if x ≤ y then x :: y :: ys else y :: sortInsert x ys

/-- slices.Sorted(maps.Keys(m)): the keys in increasing order. -/
def sortedKeys (m : VarMap) : List String :=
  (mapKeys m).foldr sortInsert []

/-- The slice src[a:b] of the source buffer, by byte offsets; characters not
wholly inside the range are dropped (offsets produced by the pipeline are
always character-aligned). -/
def sliceBytesGo : List Char → Nat → Nat → Nat → List Char
  | [], _, _, _ => []
  | c :: cs, pos, a, b =>
    let q := pos + c.utf8Size
    if a ≤ pos && q ≤ b then c :: sliceBytesGo cs q a b
    else sliceBytesGo cs q a b

/-- String form of a byte-offset slice of the source. -/
def sliceBytes (src : List Char) (a b : Nat) : String :=
  String.mk (sliceBytesGo src 0 a b)

/-- Whether the needle occurs as a contiguous substring (strings.Contains /
strings.Index successful test). -/
def listContainsSub (n : List Char) : List Char → Bool
  | [] => hasPref [] n
  | c :: t => hasPref (c :: t) n || listContainsSub n t

/-- strings.Contains. -/
def strContains (h n : String) : Bool := listContainsSub n.data h.data

/-- Accumulate a run of decimal digits: value, count and remainder. -/
def digitsAcc : List Char → Nat → Nat → Nat × Nat × List Char
  | [], v, n => (v, n, [])
  | c :: cs, v, n =>
    if isDigit c then digitsAcc cs (v * 10 + (c.toNat - 48)) (n + 1)
    else (v, n, c :: cs)

/-- A duration unit suffix and its multiplier in nanoseconds. -/
def unitOf : List Char → Option (Int × List Char)
  | 'n' :: 's' :: r => some (1, r)
  | 'u' :: 's' :: r => some (1000, r)
  | 'm' :: 's' :: r => some (1000000, r)
  | 'm' :: r => some (60000000000, r)
  | 's' :: r => some (1000000000, r)
  | 'h' :: r => some (3600000000000, r)
  | _ => none

/-- Sum a sequence of integer+unit segments. -/
def parseSegs : Nat → List Char → Option Int
  | _, [] => some 0
  | 0, _ => none
  | fuel + 1, cs =>
    let dcr := digitsAcc cs 0 0
    if dcr.2.1 = 0 then none
    else
      match unitOf dcr.2.2 with
      | none => none
      | some (mult, r2) =>
        match parseSegs fuel r2 with
        | none => none
        | some rest => some ((dcr.1 : Int) * mult + rest)

/-- Modelled from the Go standard library: time.ParseDuration, restricted to
the forms this repository uses in source and test data: the literal 0, or a
nonempty sequence of unsigned integer+unit segments with units ns, us, ms,
s, m, h and no decimal fractions.  Everything else is a parse error. -/
def goParseDuration (s : String) : Option Int :=
  if s = "0" then some 0
  else if s.data = [] then none
  else parseSegs (s.data.length + 1) s.data

/-- Modelled from the Go standard library: time.Duration.String, restricted
to nonnegative whole-second durations, which are the only values the
renderer meets in the settled claims; Go keeps zeroed smaller units after
the leading unit (1h0m0s).  Sub-second durations are rendered in
nanoseconds in this model. -/
def goFormatDuration (d : Int) : String :=
  if d = 0 then "0s"
  else if d > 0 && d % 1000000000 = 0 then
    let ssec := (d / 1000000000).toNat
    let sec := ssec % 60
    let mins := ssec / 60
    let m := mins % 60
    let h := mins / 60
    if h > 0 then
      toString h ++ "h" ++ toString m ++ "m" ++ toString sec ++ "s"
    else if mins > 0 then toString mins ++ "m" ++ toString sec ++ "s"
    else toString sec ++ "s"
  else toString d ++ "ns"

/-- Modelled from the Go standard library: net/url url.Parse as a lax check
for possibly templated URLs; parsing fails only on ASCII control
characters.  The error detail string is not modelled. -/
def urlParseOk (s : String) : Bool :=
  s.data.all fun c => !(c.toNat < 0x20 || c.toNat = 0x7f)

/-- Whether the character list starts with a URI scheme followed by a colon. -/
def schemeRest : List Char → Bool
  | [] => false
  | c :: r =>
    if c = ':' then true
    else (isAlphaNumeric c || c = '+' || c = '-' || c = '.') && schemeRest r

/-- Whether the string has a URI scheme. -/
def hasScheme : List Char → Bool
  | [] => false
  | c :: rest => isAlpha c && schemeRest rest

/-- Modelled from the Go standard library: net/url url.ParseRequestURI; the
string must contain no control characters or spaces and must be absolute: a
scheme-qualified URL or a rooted path. -/
def urlParseRequestURIOk (s : String) : Bool :=
  urlParseOk s && s.data.all (fun c => !(c = ' ')) &&
  (hasScheme s.data ||
    (match s.data with
     | '/' :: _ => true
     | _ => false))

end Req

namespace Req

/-!
## Raw syntax tree and parser

Embedding of the parser (package parser).  The raw File and Request carry
the union of the fields of the syntax package revisions: the parser
revision under src names the response path ResponseRef and has no prompt or
comment fields (the parser never writes them); the resolver revision reads
prompts, comment and responseFile.  Durations are int64 nanosecond counts.

The parser pulls tokens from the scanner through a channel; that stream is
modelled as a list of tokens followed by zero-value EOF tokens once
exhausted, so the parser theorems quantify over arbitrary token streams,
of which scanner outputs are a special case.  The recorded errors model the
invocations of Parser.error: the Go code always sets hadErrors there and
additionally forwards the diagnostic when a handler is installed.
-/

/-- A prompt of the raw tree. -/
structure RawPrompt where
  name : String
  description : String
  deriving DecidableEq, Repr

/-- A raw request (syntax.Request). -/
structure RawRequest where
  vars : VarMap := []
  headers : VarMap := []
  prompts : List RawPrompt := []
  name : String := ""
  comment : String := ""
  method : String := ""
  url : String := ""
  httpVersion : String := ""
  bodyFile : String := ""
  responseFile : String := ""
  body : Option String := none
  timeout : Int := 0
  connectionTimeout : Int := 0
  noRedirect : Bool := false
  deriving DecidableEq, Repr

/-- A raw file (syntax.File). -/
structure RawFile where
  name : String := ""
  vars : VarMap := []
  prompts : List RawPrompt := []
  requests : List RawRequest := []
  timeout : Int := 0
  connectionTimeout : Int := 0
  noRedirect : Bool := false
  deriving DecidableEq, Repr

/-- The zero syntax.Request. -/
def zeroRawRequest : RawRequest := {}

/-- The zero syntax.File. -/
def zeroRawFile : RawFile := {}

/-- Parser state (struct Parser). -/
structure PState where
  name : String
  src : List Char
  current : Token
  next : Token
  stream : List Token
  errors : List (Position × String)
  hadErrors : Bool
  deriving Repr

/-- Parser.advance: slide the two-token window, reading the zero token once
the stream is exhausted (closed channel). -/
def padv (p : PState) : PState :=
  match p.stream with
  | [] => { p with current := p.next, next := zeroToken }
  | t :: ts => { p with current := p.next, next := t, stream := ts }

/-- Byte walk of Parser.position: line number and the offset after the last
newline before the target. -/
def lineWalk : List Char → Nat → Nat → Nat → Nat → Nat × Nat
  | [], _, _, line, lastNL => (line, lastNL)
  | c :: cs, pos, target, line, lastNL =>
    if target ≤ pos then (line, lastNL)
    else if c = '\n' then lineWalk cs (pos + c.utf8Size) target (line + 1) (pos + 1)
    else lineWalk cs (pos + c.utf8Size) target line lastNL

/-- Parser.position. -/
def pposition (p : PState) : Position :=
  let lw := lineWalk p.src 0 p.current.tokStart 1 0
  let start := if p.next.kind = Kind.eof then p.current.tokEnd else p.current.tokStart
  { name := p.name
    offset := 0
    line := lw.1
    startCol := 1 + (start : Int) - (lw.2 : Int)
    endCol := 1 + (p.current.tokEnd : Int) - (lw.2 : Int) }

/-- Parser.error: record the flag and the positioned message (delivery to a
nil handler is a no-op in Go; the recorded list models the calls). -/
def perror (msg : String) (p : PState) : PState :=
  { p with hadErrors := true, errors := p.errors ++ [(pposition p, msg)] }

/-- Parser.text: the chunk of source described by the current token. -/
def ptext (p : PState) : String :=
  sliceBytes p.src p.current.tokStart p.current.tokEnd

/-- The printed name of a token kind (the stringer line comments). -/
def kindName : Kind → String
  | Kind.eof => "EOF"
  | Kind.error => "Error"
  | Kind.comment => "Comment"
  | Kind.text => "Text"
  | Kind.url => "URL"
  | Kind.header => "Header"
  | Kind.body => "Body"
  | Kind.ident => "Ident"
  | Kind.separator => "RequestSeparator"
  | Kind.at => "At"
  | Kind.eq => "Eq"
  | Kind.colon => "Colon"
  | Kind.leftAngle => "LeftAngle"
  | Kind.rightAngle => "RightAngle"
  | Kind.httpVersion => "HTTPVersion"
  | Kind.methodGet => "MethodGet"
  | Kind.methodHead => "MethodHead"
  | Kind.methodPost => "MethodPost"
  | Kind.methodPut => "MethodPut"
  | Kind.methodDelete => "MethodDelete"
  | Kind.methodConnect => "MethodConnect"
  | Kind.methodPatch => "MethodPatch"
  | Kind.methodOptions => "MethodOptions"
  | Kind.methodTrace => "MethodTrace"
  | Kind.kwName => "Name"
  | Kind.kwTimeout => "Timeout"
  | Kind.kwConnectionTimeout => "ConnectionTimeout"
  | Kind.kwNoRedirect => "NoRedirect"
  | Kind.kwPrompt => "Prompt"

/-- Parser.expect: advance only when the next token is of one of the given
kinds, recording a syntax error otherwise. -/
def pexpect (kinds : List Kind) (p : PState) : PState :=
  match kinds with
  | [] => p
  | [k] =>
    if p.next.kind ≠ k then
      perror ("expected " ++ kindName k ++ ", got " ++ kindName p.next.kind) p
    else padv p
  | _ =>
    if ¬(kinds.contains p.next.kind) then
      perror ("expected one of several kinds, got " ++ kindName p.next.kind) p
    else padv p

/-- Parser.validateURL: lax for templated URLs, strict otherwise. -/
def validateURLP (raw : String) (p : PState) : PState :=
  if strContains raw "\x7b\x7b" then
    if urlParseOk raw then p else perror "invalid URL" p
  else
    if urlParseRequestURIOk raw then p else perror "invalid URL" p

/-- Parser.parseDuration. -/
def parseDurationP (p : PState) : PState × Int :=
  let p := padv p
  let p := if p.next.kind = Kind.eq then padv p else p
  let p := pexpect [Kind.text] p
  match goParseDuration (ptext p) with
  | none => (perror "bad timeout value" p, 0)
  | some d => (p, d)

/-- Parser.parseName. -/
def parseNameP (p : PState) : PState × String :=
  let p := padv p
  let p := if p.next.kind = Kind.eq then padv p else p
  let p := pexpect [Kind.text] p
  (p, ptext p)

/-- Parser.parseVar (ok is always true in the source). -/
def parseVarP (p : PState) : PState × String × String × Bool :=
  let p := padv p
  let key := ptext p
  let p := pexpect [Kind.eq] p
  let p := pexpect [Kind.url, Kind.text] p
  let p := if p.current.kind = Kind.url then validateURLP (ptext p) p else p
  (p, key, ptext p, true)

/-- Parser.parseGlobals, fuel-bounded (the loop consumes at least one token
per iteration; the canonical fuel below always suffices). -/
def parseGlobalsGo : Nat → RawFile → PState → RawFile × PState
  | 0, file, p => (file, p)
  | fuel + 1, file, p =>
    if p.current.kind = Kind.at then
      let fp :=
        if p.next.kind = Kind.kwTimeout then
          let r := parseDurationP p
          ({ file with timeout := r.2 }, r.1)
        else if p.next.kind = Kind.kwConnectionTimeout then
          let r := parseDurationP p
          ({ file with connectionTimeout := r.2 }, r.1)
        else if p.next.kind = Kind.kwNoRedirect then
          ({ file with noRedirect := true }, padv p)
        else if p.next.kind = Kind.kwName then
          let r := parseNameP p
          ({ file with name := r.2 }, r.1)
        else if p.next.kind = Kind.ident then
          let r := parseVarP p
          ({ file with vars := mapSet file.vars r.2.1 r.2.2.1 }, r.1)
        else
          (file, perror ("unexpected token " ++ kindName p.next.kind) p)
      parseGlobalsGo fuel fp.1 (padv fp.2)
    else (file, p)

/-- Parser.parseRequestVars, fuel-bounded. -/
def parseRequestVarsGo : Nat → RawRequest → PState → RawRequest × PState
  | 0, request, p => (request, p)
  | fuel + 1, request, p =>
    if p.current.kind = Kind.at then
      let rp :=
        if p.next.kind = Kind.kwTimeout then
          let r := parseDurationP p
          ({ request with timeout := r.2 }, r.1)
        else if p.next.kind = Kind.kwConnectionTimeout then
          let r := parseDurationP p
          ({ request with connectionTimeout := r.2 }, r.1)
        else if p.next.kind = Kind.kwNoRedirect then
          ({ request with noRedirect := true }, padv p)
        else if p.next.kind = Kind.kwName then
          let r := parseNameP p
          ({ request with name := r.2 }, r.1)
        else if p.next.kind = Kind.ident then
          let r := parseVarP p
          ({ request with vars := mapSet request.vars r.2.1 r.2.2.1 }, r.1)
        else
          (request, perror ("unexpected token " ++ kindName p.next.kind) p)
      parseRequestVarsGo fuel rp.1 (padv rp.2)
    else (request, p)

/-- The header loop of Parser.parseRequest, fuel-bounded. -/
def parseHeadersGo : Nat → RawRequest → PState → RawRequest × PState
  | 0, request, p => (request, p)
  | fuel + 1, request, p =>
    if p.next.kind = Kind.header then
      let p := padv p
      let key := ptext p
      let p := pexpect [Kind.colon] p
      let p := pexpect [Kind.text] p
      parseHeadersGo fuel
        { request with headers := mapSet request.headers key (ptext p) } p
    else (request, p)

/-- The separator-line name of Parser.parseRequest: an optional Text token
right after the separator. -/
def prName (p : PState) : RawRequest × PState :=
  if p.next.kind = Kind.text then
    let p := padv p
    ({ zeroRawRequest with name := ptext p }, p)
  else (zeroRawRequest, p)

/-- The URL step of Parser.parseRequest: expect a URL token, validate the
current text, store it. -/
def prURL (r : RawRequest) (p : PState) : RawRequest × PState :=
  let p := pexpect [Kind.url] p
  let p := validateURLP (ptext p) p
  ({ r with url := ptext p }, p)

/-- The optional HTTP version of Parser.parseRequest. -/
def prVersion (rp : RawRequest × PState) : RawRequest × PState :=
  if rp.2.next.kind = Kind.httpVersion then
    let p := padv rp.2
    ({ rp.1 with httpVersion := ptext p }, p)
  else rp

/-- The header loop of Parser.parseRequest on a pair. -/
def prHeaders (fuel : Nat) (rp : RawRequest × PState) : RawRequest × PState :=
  parseHeadersGo fuel rp.1 rp.2

/-- The optional inline body of Parser.parseRequest. -/
def prBody (rp : RawRequest × PState) : RawRequest × PState :=
  if rp.2.next.kind = Kind.body then
    let p := padv rp.2
    ({ rp.1 with body := some (ptext p) }, p)
  else rp

/-- The first angle block of Parser.parseRequest: a body file or a response
reference. -/
def prAngle1 (rp : RawRequest × PState) : RawRequest × PState :=
  if rp.2.next.kind = Kind.leftAngle then
    let p := padv rp.2
    if p.next.kind = Kind.rightAngle then
      let p := padv p
      let p := pexpect [Kind.text] p
      ({ rp.1 with responseFile := ptext p }, p)
    else
      let p := pexpect [Kind.text] p
      ({ rp.1 with bodyFile := ptext p }, p)
  else rp

/-- The second angle block of Parser.parseRequest: a response reference
after a file body. -/
def prAngle2 (rp : RawRequest × PState) : RawRequest × PState :=
  if rp.2.next.kind = Kind.leftAngle then
    let p := padv rp.2
    let p := pexpect [Kind.rightAngle] p
    let p := pexpect [Kind.text] p
    ({ rp.1 with responseFile := ptext p }, p)
  else rp

/-- The dual-body check ending Parser.parseRequest. -/
def prDual (rp : RawRequest × PState) : RawRequest × PState :=
  if rp.1.body ≠ none ∧ rp.1.bodyFile ≠ "" then
    (zeroRawRequest,
      perror "cannot have both an inline body and an input body file" rp.2)
  else rp

/-- Parser.parseRequest, decomposed into the stages above in source order
(inner loops bounded by the given fuel). -/
def parseRequestP (fuel : Nat) (p : PState) : RawRequest × PState :=
  if p.current.kind ≠ Kind.separator then
    (zeroRawRequest,
      perror ("expected RequestSeparator, got " ++ kindName p.current.kind) p)
  else
    let np := prName p
    let rq := parseRequestVarsGo fuel np.1 (padv np.2)
    if ¬(isMethodKind rq.2.current.kind) then
      (zeroRawRequest,
        perror ("request separators must be followed by either a name or a HTTP method, got " ++
          kindName rq.2.current.kind) rq.2)
    else
      prDual (prAngle2 (prAngle1 (prBody (prHeaders fuel
        (prVersion (prURL { rq.1 with method := ptext rq.2 } rq.2))))))

/-- The request loop of Parser.Parse, fuel-bounded: each iteration consumes
at least one token, so the canonical fuel always suffices. -/
def parseLoopGo : Nat → RawFile → PState → RawFile × PState
  | 0, file, p => (file, p)
  | fuel + 1, file, p =>
    if p.current.kind = Kind.eof then (file, p)
    else
      let rp := parseRequestP fuel p
      let request :=
        if rp.1.name = "" then
          { rp.1 with name := "#" ++ toString (file.requests.length + 1) }
        else rp.1
      parseLoopGo fuel { file with requests := file.requests ++ [request] }
        (padv rp.2)

/-- The fuel used for the parser loops: far more than one token per loop
iteration can consume. -/
def pFuel (stream : List Token) : Nat := stream.length + 4

/-- The parser state just after Parser.New: stream installed and the
two-token window primed by two advances. -/
def pInit (name : String) (src : List Char) (stream : List Token) : PState :=
  padv (padv
    { name := name, src := src, current := zeroToken, next := zeroToken,
      stream := stream, errors := [], hadErrors := false })

/-- Parser.Parse up to the end of the global block. -/
def pAfterGlobals (name : String) (src : List Char) (stream : List Token) :
    RawFile × PState :=
  parseGlobalsGo (pFuel stream) { zeroRawFile with name := name }
    (pInit name src stream)

/-- Parser.Parse: globals, then requests named by position when anonymous,
then the summary error decision.  Returns the file, the summary-error flag
(ErrParse) and the final parser state. -/
def ParseP (name : String) (src : List Char) (stream : List Token) :
    RawFile × Bool × PState :=
  let fp := pAfterGlobals name src stream
  let fp2 := parseLoopGo (pFuel stream) fp.1 fp.2
  if fp2.2.hadErrors then (zeroRawFile, true, fp2.2)
  else (fp2.1, false, fp2.2)

/-- The whole front half of the pipeline: scan then parse. -/
def parseString (name : String) (src : List Char) : RawFile × Bool × PState :=
  ParseP name src (scanToks name src)

end Req

namespace Req

/-!
## Parser error accounting (claim C4)

hadErrors is set exactly by Parser.error, which also records the
diagnostic, so the flag is true exactly when at least one diagnostic was
recorded through the parser's error path.
-/

/-- The parser flag agrees with the recorded diagnostics. -/
def IErr (p : PState) : Prop := p.hadErrors = true ↔ p.errors ≠ []

theorem ierr_padv {p : PState} (h : IErr p) : IErr (padv p) := by
  unfold padv
  cases p.stream <;> exact h

theorem ierr_perror (msg : String) (p : PState) : IErr (perror msg p) := by
  unfold perror
  constructor
  · intro _
    simp
  · intro _
    rfl

theorem ierr_pexpect (ks : List Kind) {p : PState} (h : IErr p) :
    IErr (pexpect ks p) := by
  unfold pexpect
  split
  · exact h
  · split
    · exact ierr_perror _ _
    · exact ierr_padv h
  · split
    · exact ierr_perror _ _
    · exact ierr_padv h

theorem ierr_validateURLP (raw : String) {p : PState} (h : IErr p) :
    IErr (validateURLP raw p) := by
  unfold validateURLP
  split
  · split
    · exact h
    · exact ierr_perror _ _
  · split
    · exact h
    · exact ierr_perror _ _

theorem ierr_parseDurationP {p : PState} (h : IErr p) :
    IErr (parseDurationP p).1 := by
  unfold parseDurationP
  simp only []
  repeat' split
  all_goals repeat
    first
      | assumption
      | exact ierr_perror _ _
      | apply ierr_padv
      | apply ierr_pexpect

theorem ierr_parseNameP {p : PState} (h : IErr p) : IErr (parseNameP p).1 := by
  unfold parseNameP
  simp only []
  repeat' split
  all_goals repeat
    first
      | assumption
      | apply ierr_padv
      | apply ierr_pexpect

theorem ierr_parseVarP {p : PState} (h : IErr p) : IErr (parseVarP p).1 := by
  unfold parseVarP
  simp only []
  repeat' split
  all_goals repeat
    first
      | assumption
      | apply ierr_validateURLP
      | apply ierr_padv
      | apply ierr_pexpect

theorem ierr_parseGlobalsGo (fuel : Nat) :
    ∀ (file : RawFile) {p : PState}, IErr p →
      IErr (parseGlobalsGo fuel file p).2 := by
  induction fuel with
  | zero => intro file p h; exact h
  | succ fuel ih =>
    intro file p h
    unfold parseGlobalsGo
    simp only []
    split
    · apply ih
      repeat' split
      all_goals repeat
        first
          | assumption
          | exact ierr_perror _ _
          | apply ierr_padv
          | apply ierr_parseDurationP
          | apply ierr_parseNameP
          | apply ierr_parseVarP
    · exact h

theorem ierr_parseRequestVarsGo (fuel : Nat) :
    ∀ (r : RawRequest) {p : PState}, IErr p →
      IErr (parseRequestVarsGo fuel r p).2 := by
  induction fuel with
  | zero => intro r p h; exact h
  | succ fuel ih =>
    intro r p h
    unfold parseRequestVarsGo
    simp only []
    split
    · apply ih
      repeat' split
      all_goals repeat
        first
          | assumption
          | exact ierr_perror _ _
          | apply ierr_padv
          | apply ierr_parseDurationP
          | apply ierr_parseNameP
          | apply ierr_parseVarP
    · exact h

theorem ierr_parseHeadersGo (fuel : Nat) :
    ∀ (r : RawRequest) {p : PState}, IErr p →
      IErr (parseHeadersGo fuel r p).2 := by
  induction fuel with
  | zero => intro r p h; exact h
  | succ fuel ih =>
    intro r p h
    unfold parseHeadersGo
    simp only []
    split
    · apply ih
      repeat
        first
          | assumption
          | apply ierr_padv
          | apply ierr_pexpect
    · exact h

theorem ierr_prName {p : PState} (h : IErr p) : IErr (prName p).2 := by
  unfold prName
  simp only []
  split
  · exact ierr_padv h
  · exact h

theorem ierr_prURL (r : RawRequest) {p : PState} (h : IErr p) :
    IErr (prURL r p).2 := by
  unfold prURL
  simp only []
  exact ierr_validateURLP _ (ierr_pexpect _ h)

theorem ierr_prVersion {rp : RawRequest × PState} (h : IErr rp.2) :
    IErr (prVersion rp).2 := by
  unfold prVersion
  simp only []
  split
  · exact ierr_padv h
  · exact h

theorem ierr_prHeaders (fuel : Nat) {rp : RawRequest × PState}
    (h : IErr rp.2) : IErr (prHeaders fuel rp).2 :=
  ierr_parseHeadersGo fuel rp.1 h

theorem ierr_prBody {rp : RawRequest × PState} (h : IErr rp.2) :
    IErr (prBody rp).2 := by
  unfold prBody
  simp only []
  split
  · exact ierr_padv h
  · exact h

theorem ierr_prAngle1 {rp : RawRequest × PState} (h : IErr rp.2) :
    IErr (prAngle1 rp).2 := by
  unfold prAngle1
  simp only []
  split
  · split
    · exact ierr_pexpect _ (ierr_padv (ierr_padv h))
    · exact ierr_pexpect _ (ierr_padv h)
  · exact h

theorem ierr_prAngle2 {rp : RawRequest × PState} (h : IErr rp.2) :
    IErr (prAngle2 rp).2 := by
  unfold prAngle2
  simp only []
  split
  · exact ierr_pexpect _ (ierr_pexpect _ (ierr_padv h))
  · exact h

theorem ierr_prDual {rp : RawRequest × PState} (h : IErr rp.2) :
    IErr (prDual rp).2 := by
  unfold prDual
  split
  · exact ierr_perror _ _
  · exact h

theorem ierr_parseRequestP (fuel : Nat) {p : PState} (h : IErr p) :
    IErr (parseRequestP fuel p).2 := by
  unfold parseRequestP
  simp only []
  split
  · exact ierr_perror _ _
  · split
    · exact ierr_perror _ _
    · exact ierr_prDual (ierr_prAngle2 (ierr_prAngle1 (ierr_prBody
        (ierr_prHeaders fuel (ierr_prVersion (ierr_prURL _
          (ierr_parseRequestVarsGo fuel _ (ierr_padv (ierr_prName h)))))))))

theorem ierr_parseLoopGo (fuel : Nat) :
    ∀ (file : RawFile) {p : PState}, IErr p →
      IErr (parseLoopGo fuel file p).2 := by
  induction fuel with
  | zero => intro file p h; exact h
  | succ fuel ih =>
    intro file p h
    unfold parseLoopGo
    split
    · exact h
    · apply ih
      apply ierr_padv
      exact ierr_parseRequestP fuel h

theorem ierr_pInit (name : String) (src : List Char) (stream : List Token) :
    IErr (pInit name src stream) := by
  apply ierr_padv
  apply ierr_padv
  constructor
  · intro hcon
    cases hcon
  · intro hcon
    cases hcon rfl

/-- Claim C4: Parse returns a summary error exactly when at least one
diagnostic was recorded through the parser's own error path during parsing,
and in that case the accompanying File is the zero value. -/
theorem claim_c4_error_iff_diagnostics (name : String) (src : List Char)
    (stream : List Token) :
    ((ParseP name src stream).2.1 = true ↔
      (ParseP name src stream).2.2.errors ≠ []) ∧
    ((ParseP name src stream).2.1 = true →
      (ParseP name src stream).1 = zeroRawFile) := by
  have hIErr : IErr (parseLoopGo (pFuel stream) (pAfterGlobals name src stream).1
      (pAfterGlobals name src stream).2).2 := by
    apply ierr_parseLoopGo
    exact ierr_parseGlobalsGo _ _ (ierr_pInit name src stream)
  unfold ParseP
  simp only []
  split
  · next hh =>
    constructor
    · constructor
      · intro _
        exact hIErr.mp hh
      · intro _
        rfl
    · intro _
      rfl
  · next hh =>
    have hf : (parseLoopGo (pFuel stream) (pAfterGlobals name src stream).1
        (pAfterGlobals name src stream).2).2.hadErrors = false := by
      cases hb : (parseLoopGo (pFuel stream) (pAfterGlobals name src stream).1
          (pAfterGlobals name src stream).2).2.hadErrors
      · rfl
      · exact absurd hb hh
    constructor
    · constructor
      · intro hcon
        simp at hcon
      · intro hne
        exact absurd (hIErr.mpr hne) (by simp [hf])
    · intro hcon
      simp at hcon

/-- Witness for C4 is not required (no hypotheses), but the theorem is
exercised concretely elsewhere; this closed corollary applies it at a
stream with one diagnostic. -/
theorem claim_c4_error_iff_diagnostics_witness :
    (ParseP "w" [] [⟨Kind.eq, 0, 0⟩]).2.1 = true ∧
    (ParseP "w" [] [⟨Kind.eq, 0, 0⟩]).1 = zeroRawFile := by
  have h := claim_c4_error_iff_diagnostics "w" [] [⟨Kind.eq, 0, 0⟩]
  refine ⟨by decide, h.2 (by decide)⟩

end Req

namespace Req

theorem append_singleton_ne {α : Type} (l : List α) (x : α) : l ++ [x] ≠ l := by
  intro h
  have := congrArg List.length h
  simp at this

/-- Claim C8: validateURL records the invalid-URL diagnostic exactly when
the templated string (containing the double-brace opener) fails lax URL
parsing, respectively when the untemplated string fails to parse as an
absolute request URI; the recorded diagnostic is the invalid URL message. -/
theorem claim_c8_url_validation (raw : String) (p : PState) :
    ((validateURLP raw p).errors ≠ p.errors ↔
      (if strContains raw "\x7b\x7b" = true then urlParseOk raw = false
       else urlParseRequestURIOk raw = false)) ∧
    ((validateURLP raw p).errors ≠ p.errors →
      ∃ pos, (validateURLP raw p).errors = p.errors ++ [(pos, "invalid URL")]) := by
  unfold validateURLP
  by_cases hb : strContains raw "\x7b\x7b" = true
  · simp only [hb, if_pos rfl, if_true]
    by_cases hok : urlParseOk raw = true
    · simp only [hok, if_true, if_pos rfl]
      constructor
      · constructor
        · intro hcon
          exact absurd rfl hcon
        · intro hcon
          simp at hcon
      · intro hcon
        exact absurd rfl hcon
    · have hok2 : urlParseOk raw = false := by
        cases h : urlParseOk raw
        · rfl
        · exact absurd h hok
      simp only [hok2, Bool.false_eq_true, if_false]
      constructor
      · constructor
        · intro _
          trivial
        · intro _
          exact append_singleton_ne _ _
      · intro _
        exact ⟨pposition p, rfl⟩
  · have hb2 : strContains raw "\x7b\x7b" = false := by
      cases h : strContains raw "\x7b\x7b"
      · rfl
      · exact absurd h hb
    simp only [hb2, Bool.false_eq_true, if_false]
    by_cases hok : urlParseRequestURIOk raw = true
    · simp only [hok, if_true, if_pos rfl]
      constructor
      · constructor
        · intro hcon
          exact absurd rfl hcon
        · intro hcon
          simp at hcon
      · intro hcon
        exact absurd rfl hcon
    · have hok2 : urlParseRequestURIOk raw = false := by
        cases h : urlParseRequestURIOk raw
        · rfl
        · exact absurd h hok
      simp only [hok2, Bool.false_eq_true, if_false]
      constructor
      · constructor
        · intro _
          trivial
        · intro _
          exact append_singleton_ne _ _
      · intro _
        exact ⟨pposition p, rfl⟩

/-- Witness for C8: the untemplated string notaurl fails strict validation
and the diagnostic recorded is the invalid URL message. -/
theorem claim_c8_url_validation_witness :
    (validateURLP "notaurl" (pInit "w" [] [])).errors ≠ (pInit "w" [] []).errors ∧
    ∃ pos, (validateURLP "notaurl" (pInit "w" [] [])).errors =
      (pInit "w" [] []).errors ++ [(pos, "invalid URL")] := by
  have h := claim_c8_url_validation "notaurl" (pInit "w" [] [])
  have hne := h.1.mpr (by decide)
  exact ⟨hne, h.2 hne⟩

end Req

namespace Req

/-!
## Duplicate headers (claim C9)
-/

theorem mapLookup_mapSet (m : VarMap) (k v q : String) :
    mapLookup (mapSet m k v) q = if k = q then some v else mapLookup m q := by
  induction m with
  | nil => simp [mapSet, mapLookup]
  | cons pr rest ih =>
    by_cases h1 : pr.1 = k
    · simp only [mapSet, mapLookup, if_pos h1]
      by_cases h2 : pr.1 = q
      · rw [h1] at h2
        simp [mapLookup, h2, h1]
      · have hkq : ¬(k = q) := by rw [← h1]; exact h2
        simp [mapLookup, h1, h2, hkq]
    · simp only [mapSet, mapLookup, if_neg h1]
      by_cases h2 : pr.1 = q
      · have hkq : ¬(k = q) := by
          intro hc
          rw [hc] at h1
          exact h1 h2
        simp [mapLookup, h2, hkq]
      · simp [mapLookup, h2, ih]

/-- The value of the last pair with the given key, if any. -/
def lastVal (k : String) : List (String × String) → Option String
  | [] => none
  | pr :: ps =>
    match lastVal k ps with
    | some v => some v
    | none => if pr.1 = k then some pr.2 else none

theorem lookup_foldl_mapSet (k : String) :
    ∀ (ps : List (String × String)) (m : VarMap),
      mapLookup (ps.foldl (fun m pr => mapSet m pr.1 pr.2) m) k =
        match lastVal k ps with
        | some v => some v
        | none => mapLookup m k := by
  intro ps
  induction ps with
  | nil => intro m; simp [lastVal]
  | cons pr ps ih =>
    intro m
    rw [List.foldl_cons, ih (mapSet m pr.1 pr.2)]
    rw [show lastVal k (pr :: ps) =
      match lastVal k ps with
      | some v => some v
      | none => if pr.1 = k then some pr.2 else none from rfl]
    cases lastVal k ps with
    | some v => rfl
    | none =>
      rw [mapLookup_mapSet]
      by_cases h : pr.1 = k
      · simp [h]
      · simp [h]

/-- The token stream of a run of header triples. -/
def tripleToks : List (Token × Token × Token) → List Token
  | [] => []
  | tr :: ps => tr.1 :: tr.2.1 :: tr.2.2 :: tripleToks ps

/-- Well-formed header triples: Header, Colon, Text kinds. -/
def triplesWF (ps : List (Token × Token × Token)) : Prop :=
  ∀ tr ∈ ps, tr.1.kind = Kind.header ∧ tr.2.1.kind = Kind.colon ∧
    tr.2.2.kind = Kind.text

/-- The rest of the stream does not begin with another header token. -/
def restSafe : List Token → Prop
  | [] => True
  | t :: _ => t.kind ≠ Kind.header

theorem padv_cons {p : PState} {t : Token} {ts : List Token}
    (h : p.stream = t :: ts) :
    padv p = { p with current := p.next, next := t, stream := ts } := by
  unfold padv
  rw [h]

theorem padv_nil {p : PState} (h : p.stream = []) :
    padv p = { p with current := p.next, next := zeroToken } := by
  unfold padv
  rw [h]

theorem pexpect_one_hit {p : PState} {k : Kind} (h : p.next.kind = k) :
    pexpect [k] p = padv p := by
  unfold pexpect
  simp [h]

end Req

namespace Req

/-- Replace the headers of a raw request. -/
def withHeaders (r : RawRequest) (h : VarMap) : RawRequest :=
  { r with headers := h }

/-- Reposition the parser window. -/
def pAt (p : PState) (cur nxt : Token) (st : List Token) : PState :=
  { p with current := cur, next := nxt, stream := st }

theorem parseHeadersGo_step (fuel : Nat) (r : RawRequest) (p : PState)
    (c t : Token) (rest2 : List Token)
    (hh : p.next.kind = Kind.header) (hst : p.stream = c :: t :: rest2)
    (hc : c.kind = Kind.colon) (ht : t.kind = Kind.text) :
    parseHeadersGo (fuel + 1) r p =
      parseHeadersGo fuel
        (withHeaders r (mapSet r.headers
          (sliceBytes p.src p.next.tokStart p.next.tokEnd)
          (sliceBytes p.src t.tokStart t.tokEnd)))
        (pAt p t (rest2.headD zeroToken) rest2.tail) := by
  conv_lhs => rw [parseHeadersGo]
  simp [padv, pexpect, ptext, hst, hh, hc, ht, withHeaders, pAt]
  cases rest2 <;> simp


/-- The parser's next token on entry to a run of header triples. -/
def hdrNext : List (Token × Token × Token) → List Token → Token
  | [], rest => rest.headD zeroToken
  | tr :: _, _ => tr.1

/-- The parser's remaining stream on entry to a run of header triples. -/
def hdrStream : List (Token × Token × Token) → List Token → List Token
  | [], rest => rest.tail
  | tr :: ps, rest => tr.2.1 :: tr.2.2 :: tripleToks ps ++ rest

/-- The source-order (name, value) string pairs of a run of header
triples. -/
def hdrPairs (src : List Char) (ps : List (Token × Token × Token)) :
    List (String × String) :=
  ps.map (fun tr =>
    (sliceBytes src tr.1.tokStart tr.1.tokEnd,
     sliceBytes src tr.2.2.tokStart tr.2.2.tokEnd))

theorem parseHeadersGo_spec :
    ∀ (ps : List (Token × Token × Token)) (fuel : Nat) (r : RawRequest)
      (p : PState) (rest : List Token),
      triplesWF ps → restSafe rest →
      p.next = hdrNext ps rest → p.stream = hdrStream ps rest →
      ps.length ≤ fuel →
      (parseHeadersGo fuel r p).1 =
        withHeaders r ((hdrPairs p.src ps).foldl
          (fun m pr => mapSet m pr.1 pr.2) r.headers) := by
  intro ps
  induction ps with
  | nil =>
    intro fuel r p rest hwf hrs hn hs hfuel
    have hnh : ¬(p.next.kind = Kind.header) := by
      rw [hn]
      cases rest with
      | nil => simp [hdrNext, zeroToken]
      | cons t ts => simpa [hdrNext] using hrs
    cases fuel with
    | zero => rfl
    | succ f =>
      conv_lhs => rw [parseHeadersGo]
      simp [hnh, hdrPairs, withHeaders]
  | cons tr ps ih =>
    intro fuel r p rest hwf hrs hn hs hfuel
    cases fuel with
    | zero => exact absurd hfuel (by simp)
    | succ f =>
      have hwf1 := hwf tr (List.mem_cons_self tr (ps))
      have hh : p.next.kind = Kind.header := by rw [hn]; exact hwf1.1
      have hst : p.stream = tr.2.1 :: tr.2.2 :: (tripleToks ps ++ rest) := by
        simpa [hdrStream] using hs
      rw [parseHeadersGo_step f r p tr.2.1 tr.2.2 (tripleToks ps ++ rest)
        hh hst hwf1.2.1 hwf1.2.2]
      have hwf2 : triplesWF ps := fun x hx => hwf x (List.mem_cons_of_mem tr hx)
      have hn2 : (pAt p tr.2.2 ((tripleToks ps ++ rest).headD zeroToken)
          (tripleToks ps ++ rest).tail).next = hdrNext ps rest := by
        cases ps with
        | nil => simp [pAt, tripleToks, hdrNext]
        | cons tr2 ps2 => simp [pAt, tripleToks, hdrNext]
      have hs2 : (pAt p tr.2.2 ((tripleToks ps ++ rest).headD zeroToken)
          (tripleToks ps ++ rest).tail).stream = hdrStream ps rest := by
        cases ps with
        | nil => simp [pAt, tripleToks, hdrStream]
        | cons tr2 ps2 => simp [pAt, tripleToks, hdrStream]
      have hfeq := ih f
        (withHeaders r (mapSet r.headers
          (sliceBytes p.src p.next.tokStart p.next.tokEnd)
          (sliceBytes p.src tr.2.2.tokStart tr.2.2.tokEnd)))
        (pAt p tr.2.2 ((tripleToks ps ++ rest).headD zeroToken)
          (tripleToks ps ++ rest).tail)
        rest hwf2 hrs hn2 hs2 (by simpa using Nat.le_of_succ_le_succ hfuel)
      rw [hfeq]
      simp [pAt, withHeaders, hdrPairs, hn, hdrNext]

/-- Claim C9: for every request whose header section contains two or more
headers with the same name, the Headers map of the parsed request contains
exactly the value of the last occurrence in source order: across any
well-formed run of header triples, the header loop of Parser.parseRequest
stores each name's last value, because each iteration overwrites the map
entry via mapSet. -/
theorem claim_c9_duplicate_headers_last_wins
    (ps : List (Token × Token × Token)) (fuel : Nat) (r : RawRequest)
    (p : PState) (rest : List Token) (k v : String)
    (hwf : triplesWF ps) (hrs : restSafe rest)
    (hn : p.next = hdrNext ps rest) (hs : p.stream = hdrStream ps rest)
    (hfuel : ps.length ≤ fuel)
    (hlast : lastVal k (hdrPairs p.src ps) = some v) :
    mapLookup (parseHeadersGo fuel r p).1.headers k = some v := by
  rw [parseHeadersGo_spec ps fuel r p rest hwf hrs hn hs hfuel]
  rw [show (withHeaders r ((hdrPairs p.src ps).foldl
      (fun m pr => mapSet m pr.1 pr.2) r.headers)).headers =
    (hdrPairs p.src ps).foldl (fun m pr => mapSet m pr.1 pr.2) r.headers
    from rfl]
  rw [lookup_foldl_mapSet k (hdrPairs p.src ps) r.headers, hlast]

/-- The source of the C9 witness: two headers named Accept. -/
def c9src : List Char := "Accept: a\nAccept: b\n".data

/-- The header triples of the C9 witness. -/
def c9ps : List (Token × Token × Token) :=
  [(⟨Kind.header, 0, 6⟩, ⟨Kind.colon, 6, 7⟩, ⟨Kind.text, 8, 9⟩),
   (⟨Kind.header, 10, 16⟩, ⟨Kind.colon, 16, 17⟩, ⟨Kind.text, 18, 19⟩)]

/-- The parser state entering the header loop in the C9 witness. -/
def c9p : PState :=
  { name := "c9", src := c9src, current := zeroToken,
    next := ⟨Kind.header, 0, 6⟩,
    stream := [⟨Kind.colon, 6, 7⟩, ⟨Kind.text, 8, 9⟩,
      ⟨Kind.header, 10, 16⟩, ⟨Kind.colon, 16, 17⟩, ⟨Kind.text, 18, 19⟩],
    errors := [], hadErrors := false }

theorem claim_c9_duplicate_headers_last_wins_witness :
    mapLookup (parseHeadersGo 2 zeroRawRequest c9p).1.headers "Accept" =
      some "b" :=
  claim_c9_duplicate_headers_last_wins c9ps 2 zeroRawRequest c9p [] "Accept"
    "b" (by unfold triplesWF c9ps; decide) trivial rfl rfl (by decide)
    (by decide)

end Req

namespace Req

/-- Parser.Parse's positional naming: a request with no user-supplied name
is named by its 1-indexed position (k is the 0-indexed position). -/
def numbered (k : Nat) (r : RawRequest) : RawRequest :=
  if r.name = "" then { r with name := "#" ++ toString (k + 1) } else r

/-- Positional naming of a list of requests whose first element sits at
0-indexed position k. -/
def numberFrom : Nat → List RawRequest → List RawRequest
  | _, [] => []
  | k, r :: rs => numbered k r :: numberFrom (k + 1) rs

/-- The raw, un-numbered requests read by the loop of Parser.Parse. -/
def parseRequestsRaw : Nat → PState → List RawRequest × PState
  | 0, p => ([], p)
  | fuel + 1, p =>
    if p.current.kind = Kind.eof then ([], p)
    else
      let rp := parseRequestP fuel p
      let tl := parseRequestsRaw fuel (padv rp.2)
      (rp.1 :: tl.1, tl.2)

theorem numberFrom_length :
    ∀ (rs : List RawRequest) (k : Nat),
      (numberFrom k rs).length = rs.length := by
  intro rs
  induction rs with
  | nil => intro k; rfl
  | cons r rs ih => intro k; simp [numberFrom, ih]

theorem numberFrom_getD (d : RawRequest) :
    ∀ (rs : List RawRequest) (k i : Nat), i < rs.length →
      (numberFrom k rs).getD i d = numbered (k + i) (rs.getD i d) := by
  intro rs
  induction rs with
  | nil => intro k i h; exact absurd h (by simp)
  | cons r rs ih =>
    intro k i h
    cases i with
    | zero => rfl
    | succ j =>
      have hj : j < rs.length := by simpa using Nat.lt_of_succ_lt_succ h
      rw [show (numberFrom k (r :: rs)).getD (j + 1) d =
        (numberFrom (k + 1) rs).getD j d from rfl]
      rw [ih (k + 1) j hj]
      rw [show ((r :: rs).getD (j + 1) d) = rs.getD j d from rfl]
      have harith : k + 1 + j = k + (j + 1) := by omega
      rw [harith]

theorem parseLoopGo_step (f : Nat) (file : RawFile) (p : PState)
    (h : ¬(p.current.kind = Kind.eof)) :
    parseLoopGo (f + 1) file p =
      parseLoopGo f
        { file with requests := file.requests ++
          [numbered file.requests.length (parseRequestP f p).1] }
        (padv (parseRequestP f p).2) := by
  conv_lhs => rw [parseLoopGo]
  rw [if_neg h]
  rfl

theorem parseRequestsRaw_step (f : Nat) (p : PState)
    (h : ¬(p.current.kind = Kind.eof)) :
    parseRequestsRaw (f + 1) p =
      ((parseRequestP f p).1 ::
        (parseRequestsRaw f (padv (parseRequestP f p).2)).1,
       (parseRequestsRaw f (padv (parseRequestP f p).2)).2) := by
  conv_lhs => rw [parseRequestsRaw]
  rw [if_neg h]

theorem parseLoopGo_eof (f : Nat) (file : RawFile) (p : PState)
    (h : p.current.kind = Kind.eof) :
    parseLoopGo (f + 1) file p = (file, p) := by
  conv_lhs => rw [parseLoopGo]
  rw [if_pos h]

theorem parseRequestsRaw_eof (f : Nat) (p : PState)
    (h : p.current.kind = Kind.eof) :
    parseRequestsRaw (f + 1) p = ([], p) := by
  conv_lhs => rw [parseRequestsRaw]
  rw [if_pos h]

theorem parseLoopGo_requests :
    ∀ (fuel : Nat) (file : RawFile) (p : PState),
      (parseLoopGo fuel file p).1.requests =
        file.requests ++
          numberFrom file.requests.length (parseRequestsRaw fuel p).1 := by
  intro fuel
  induction fuel with
  | zero => intro file p; simp [parseLoopGo, parseRequestsRaw, numberFrom]
  | succ f ih =>
    intro file p
    by_cases h : p.current.kind = Kind.eof
    · rw [parseLoopGo_eof f file p h, parseRequestsRaw_eof f p h]
      simp [numberFrom]
    · rw [parseLoopGo_step f file p h, ih, parseRequestsRaw_step f p h]
      show (file.requests ++
          [numbered file.requests.length (parseRequestP f p).1]) ++
          numberFrom (file.requests ++
            [numbered file.requests.length (parseRequestP f p).1]).length
            (parseRequestsRaw f (padv (parseRequestP f p).2)).1 =
        file.requests ++ (numbered file.requests.length (parseRequestP f p).1 ::
          numberFrom (file.requests.length + 1)
            (parseRequestsRaw f (padv (parseRequestP f p).2)).1)
      conv_rhs => rw [List.append_cons]
      rw [show (file.requests ++
        [numbered file.requests.length (parseRequestP f p).1]).length =
        file.requests.length + 1 from by simp]

theorem parseGlobalsGo_requests :
    ∀ (fuel : Nat) (file : RawFile) (p : PState),
      (parseGlobalsGo fuel file p).1.requests = file.requests := by
  intro fuel
  induction fuel with
  | zero => intro file p; rfl
  | succ f ih =>
    intro file p
    unfold parseGlobalsGo
    simp only []
    split
    · rw [ih]
      repeat' split
      all_goals rfl
    · rfl

/-- Claim C5 (amended): in every file returned without error by
Parser.Parse, each request's name is the user-supplied value when that is
nonempty, and the string hash-k with k the request's 1-indexed position in
the file otherwise.  The uniqueness conjunct of the claim fails: the parser
never compares user-supplied names (see the counterexample). -/
theorem claim_c5_request_naming (name : String) (src : List Char)
    (stream : List Token) (i : Nat) (d : RawRequest)
    (herr : (ParseP name src stream).2.1 = false)
    (hi : i < (ParseP name src stream).1.requests.length) :
    ((ParseP name src stream).1.requests.getD i d).name =
      (if ((parseRequestsRaw (pFuel stream)
            (pAfterGlobals name src stream).2).1.getD i d).name = "" then
        "#" ++ toString (i + 1)
      else
        ((parseRequestsRaw (pFuel stream)
            (pAfterGlobals name src stream).2).1.getD i d).name) := by
  have hkey : (ParseP name src stream).1.requests =
      numberFrom 0 (parseRequestsRaw (pFuel stream)
        (pAfterGlobals name src stream).2).1 := by
    unfold ParseP
    simp only []
    split
    · rename_i hbad
      exfalso
      unfold ParseP at herr
      simp only [] at herr
      rw [if_pos hbad] at herr
      exact Bool.noConfusion herr
    · rw [parseLoopGo_requests]
      rw [show (pAfterGlobals name src stream).1.requests = [] from by
        unfold pAfterGlobals
        rw [parseGlobalsGo_requests]
        rfl]
      simp
  have hi2 : i < (parseRequestsRaw (pFuel stream)
      (pAfterGlobals name src stream).2).1.length := by
    rw [hkey, numberFrom_length] at hi
    exact hi
  rw [hkey, numberFrom_getD d _ 0 i hi2]
  unfold numbered
  split
  · simp
  · rfl

/-- Source of the C5 examples: one named request. -/
def c5src : List Char := "### A\nGET https://x/a\n".data

/-- Token stream of the C5 witness: one anonymous request. -/
def c5stream : List Token :=
  [⟨Kind.separator, 0, 3⟩, ⟨Kind.methodGet, 6, 9⟩, ⟨Kind.url, 10, 21⟩]

theorem claim_c5_request_naming_witness :
    (ParseP "c5" c5src c5stream).2.1 = false ∧
    0 < (ParseP "c5" c5src c5stream).1.requests.length ∧
    ((ParseP "c5" c5src c5stream).1.requests.getD 0 zeroRawRequest).name =
      "#1" :=
  ⟨by decide, by decide,
    (claim_c5_request_naming "c5" c5src c5stream 0 zeroRawRequest
      (by decide) (by decide)).trans (by decide)⟩

/-- Token stream of the C5 counterexample: two requests, both carrying the
user-supplied name A. -/
def c5xstream : List Token :=
  [⟨Kind.separator, 0, 3⟩, ⟨Kind.text, 4, 5⟩, ⟨Kind.methodGet, 6, 9⟩,
   ⟨Kind.url, 10, 21⟩, ⟨Kind.separator, 0, 3⟩, ⟨Kind.text, 4, 5⟩,
   ⟨Kind.methodGet, 6, 9⟩, ⟨Kind.url, 10, 21⟩]

theorem claim_c5_request_naming_counterexample :
    (ParseP "c5" c5src c5xstream).2.1 = false ∧
    (ParseP "c5" c5src c5xstream).1.requests.length = 2 ∧
    ((ParseP "c5" c5src c5xstream).1.requests.getD 0 zeroRawRequest).name =
      "A" ∧
    ((ParseP "c5" c5src c5xstream).1.requests.getD 1 zeroRawRequest).name =
      "A" := by
  refine ⟨by decide, by decide, by decide, by decide⟩

end Req

namespace Req

/-!
## Resolver (package spec, resolver revision)

Embedding of ResolveFile / resolveRequest / resolvePrompts.  The template
engine (Go text/template with missingkey=error) is modelled on the template
forms the resolver meets: literal text and field chains .Global.key /
.Local.key over the Scope value; the exec error keeps the final clause of
Go's error chain, which names the missing key.  Go map iteration order is
unspecified; the embedding iterates the association lists in list order,
which fixes which of several failing entries errors first but no resolved
value.
-/

/-- A resolved prompt (spec.Prompt). -/
structure SpecPrompt where
  name : String := ""
  description : String := ""
  deriving DecidableEq, Repr

/-- A resolved request (spec.Request).  Body is a string: the Go field is a
byte slice and a nil slice reads as the empty string. -/
structure SpecRequest where
  vars : VarMap := []
  headers : VarMap := []
  prompts : List SpecPrompt := []
  name : String := ""
  comment : String := ""
  method : String := ""
  url : String := ""
  httpVersion : String := ""
  bodyFile : String := ""
  responseFile : String := ""
  body : String := ""
  timeout : Int := 0
  connectionTimeout : Int := 0
  noRedirect : Bool := false
  deriving DecidableEq, Repr

/-- A resolved file (spec.File). -/
structure SpecFile where
  name : String := ""
  vars : VarMap := []
  prompts : List SpecPrompt := []
  requests : List SpecRequest := []
  timeout : Int := 0
  connectionTimeout : Int := 0
  noRedirect : Bool := false
  deriving DecidableEq, Repr

/-- The zero spec.Request. -/
def zeroSpecRequest : SpecRequest := {}

/-- The zero spec.File. -/
def zeroSpecFile : SpecFile := {}

/-- Modelled from the spec: Scope, the value handed to the template engine,
holding the global variables and the request-local variables; its Go source
file is not under src.  The resolver writes .Global once per file and
.Local once per request. -/
structure Scope where
  Global : VarMap := []
  Local : VarMap := []
  deriving DecidableEq, Repr

/-- Modelled from the spec: NewScope, a scope with no variables. -/
def NewScope : Scope := {}

/-- DefaultTimeout: 30 seconds in nanoseconds. -/
def DefaultTimeout : Int := 30000000000

/-- DefaultConnectionTimeout: 10 seconds in nanoseconds. -/
def DefaultConnectionTimeout : Int := 10000000000

/-- resolvePrompts: copy each prompt across. -/
def resolvePromptsGo (l : List RawPrompt) : List SpecPrompt :=
  l.map fun pr => { name := pr.name, description := pr.description }

/-- The opening brace character. -/
def lbrace : Char := Char.ofNat 123

/-- The closing brace character. -/
def rbrace : Char := Char.ofNat 125

/-- A segment of a parsed template: literal text, or a reference to a key
of the global or the local scope. -/
inductive Seg where
  | lit (s : String)
  | ref (global : Bool) (key : String)
  deriving DecidableEq, Repr

/-- Split at the first action opener: the literal prefix and, when a double
opening brace occurs, the rest after it. -/
def findAction : List Char → List Char × Option (List Char)
  | [] => ([], none)
  | c :: rest =>
    match rest with
    | c2 :: rest2 =>
      if c = lbrace ∧ c2 = lbrace then ([], some rest2)
      else
        let r := findAction rest
        (c :: r.1, r.2)
    | [] => ([c], none)

/-- Find the first closing double brace: the action body and the rest after
it. -/
def findClose : List Char → Option (List Char × List Char)
  | [] => none
  | c :: rest =>
    match rest with
    | c2 :: rest2 =>
      if c = rbrace ∧ c2 = rbrace then some ([], rest2)
      else
        match findClose rest with
        | some r => some (c :: r.1, r.2)
        | none => none
    | [] => none

/-- Space and tab trimming of an action body. -/
def trimSpaces (l : List Char) : List Char :=
  ((l.dropWhile fun c => c == ' ' || c == '\t').reverse.dropWhile
    (fun c => c == ' ' || c == '\t')).reverse

/-- Whether a field name is usable in a template action. -/
def keyOk (l : List Char) : Bool :=
  !l.isEmpty && l.all fun c => isAlphaNumeric c || c == '_'

/-- Parse an action body: a field chain .Global.key or .Local.key. -/
def parseAction (inside : List Char) : Option (Bool × String) :=
  let t := trimSpaces inside
  if hasPref t ".Global.".data then
    let key := t.drop 8
    if keyOk key then some (true, String.mk key) else none
  else if hasPref t ".Local.".data then
    let key := t.drop 7
    if keyOk key then some (false, String.mk key) else none
  else none

/-- Parse a template into segments, fuel-bounded (every recursion consumes
the four brace characters of one action). -/
def tmplSegsGo : Nat → List Char → Option (List Seg)
  | 0, _ => none
  | fuel + 1, s =>
    match findAction s with
    | (lit, none) => some [Seg.lit (String.mk lit)]
    | (lit, some rest) =>
      match findClose rest with
      | none => none
      | some ir =>
        match parseAction ir.1 with
        | none => none
        | some gk =>
          match tmplSegsGo fuel ir.2 with
          | none => none
          | some segs => some (Seg.lit (String.mk lit) :: Seg.ref gk.1 gk.2 :: segs)

/-- Modelled from the Go standard library: text/template Template.Parse as
the resolver calls it, restricted to the template forms the resolver meets:
literal text and field chains .Global.key / .Local.key.  Any other action
is a parse error in this model. -/
def tmplParse (s : String) : Option (List Seg) :=
  tmplSegsGo (s.data.length + 1) s.data

/-- Modelled from the Go standard library: text/template Template.Execute
under missingkey=error applied to a Scope value: literal and resolved
segments concatenate; the first reference whose key is absent from its map
stops execution with the map has no entry error naming the key. -/
def tmplExecGo : List Seg → Scope → String × Option String
  | [], _ => ("", none)
  | Seg.lit s :: rest, sc =>
    match tmplExecGo rest sc with
    | (out, none) => (s ++ out, none)
    | r => ("", r.2)
  | Seg.ref g key :: rest, sc =>
    match mapLookup (if g then sc.Global else sc.Local) key with
    | some v =>
      match tmplExecGo rest sc with
      | (out, none) => (v ++ out, none)
      | r => ("", r.2)
    | none => ("", some ("map has no entry for key \x22" ++ key ++ "\x22"))

/-- The request-variable loop of resolveRequest: each value is templated in
the incoming scope (whose local map is still empty) and collected. -/
def resolveVarsGo (rname : String) :
    List (String × String) → Scope → VarMap → VarMap × Option String
  | [], _, acc => (acc, none)
  | (k, v) :: rest, sc, acc =>
    match tmplParse v with
    | none => ([], some ("invalid template syntax in var " ++ k))
    | some segs =>
      match tmplExecGo segs sc with
      | (out, none) => resolveVarsGo rname rest sc (mapSet acc k out)
      | (_, some e) =>
        ([], some ("failed to execute request variable templating for request "
          ++ rname ++ ": " ++ e))

/-- The header loop of resolveRequest. -/
def resolveHeadersGo (rname : String) :
    List (String × String) → Scope → VarMap → VarMap × Option String
  | [], _, acc => (acc, none)
  | (k, v) :: rest, sc, acc =>
    match tmplParse v with
    | none => ([], some ("invalid template syntax in header " ++ k))
    | some segs =>
      match tmplExecGo segs sc with
      | (out, none) => resolveHeadersGo rname rest sc (mapSet acc k out)
      | (_, some e) =>
        ([], some ("failed to execute request header templating for request "
          ++ rname ++ ": " ++ e))

/-- The URL stage of resolveRequest: template the URL, then require an
absolute request URI. -/
def rrURL (in0 : RawRequest) (sc : Scope) : String × Option String :=
  match tmplParse in0.url with
  | none => ("", some ("invalid template syntax in URL " ++ in0.url))
  | some segs =>
    match tmplExecGo segs sc with
    | (out, none) =>
      if urlParseRequestURIOk out then (out, none)
      else ("", some ("invalid URL for request " ++ in0.name))
    | (_, some e) =>
      ("", some ("failed to execute URL templating for request " ++ in0.name
        ++ ": " ++ e))

/-- The body stage of resolveRequest: template the body (a nil body reads
as the empty string). -/
def rrBody (in0 : RawRequest) (sc : Scope) : String × Option String :=
  match tmplParse (in0.body.getD "") with
  | none =>
    ("", some ("invalid template syntax in request " ++ in0.name ++ " body"))
  | some segs =>
    match tmplExecGo segs sc with
    | (out, none) => (out, none)
    | (_, some e) =>
      ("", some ("failed to execute templating for request " ++ in0.name
        ++ " body: " ++ e))

/-- The success record of resolveRequest.  The Go code copies the plain
fields first and defaults the timeouts last; nothing in between writes
them, so the copies and the defaulting merge into one record here.
HTTPVersion is not copied (the Go code omits it). -/
def rrFinish (in0 : RawRequest) (rvars rheaders : VarMap)
    (rurl rbody : String) : SpecRequest :=
  { name := in0.name
    comment := in0.comment
    prompts := resolvePromptsGo in0.prompts
    method := in0.method
    bodyFile := in0.bodyFile
    responseFile := in0.responseFile
    noRedirect := in0.noRedirect
    vars := rvars
    headers := rheaders
    url := rurl
    body := rbody
    timeout := if in0.timeout = 0 then DefaultTimeout else in0.timeout
    connectionTimeout :=
      if in0.connectionTimeout = 0 then DefaultConnectionTimeout
      else in0.connectionTimeout }

/-- resolveRequest after the request variables: headers, URL, body. -/
def resolveRequestTail (in0 : RawRequest) (sc : Scope) (rvars : VarMap) :
    SpecRequest × Option String :=
  match resolveHeadersGo in0.name in0.headers sc [] with
  | (_, some e) => (zeroSpecRequest, some e)
  | (rheaders, none) =>
    match rrURL in0 sc with
    | (_, some e) => (zeroSpecRequest, some e)
    | (rurl, none) =>
      match rrBody in0 sc with
      | (_, some e) => (zeroSpecRequest, some e)
      | (rbody, none) => (rrFinish in0 rvars rheaders rurl rbody, none)

/-- resolveRequest: when the request has variables they are resolved into
the local scope first; then headers, URL and body. -/
def resolveRequest (in0 : RawRequest) (scope : Scope) :
    SpecRequest × Option String :=
  if 0 < in0.vars.length then
    match resolveVarsGo in0.name in0.vars scope [] with
    | (_, some e) => (zeroSpecRequest, some e)
    | (rvars, none) =>
      resolveRequestTail in0 { scope with Local := rvars } rvars
  else resolveRequestTail in0 scope []

/-- The request loop of ResolveFile: the first failing request aborts with
an error naming that request. -/
def resolveReqsGo : List RawRequest → Scope → List SpecRequest × Option String
  | [], _ => ([], none)
  | r :: rest, sc =>
    match resolveRequest r sc with
    | (_, some e) =>
      ([], some ("could not resolve request " ++ r.name ++ ": " ++ e))
    | (rr, none) =>
      match resolveReqsGo rest sc with
      | (rs, none) => (rr :: rs, none)
      | (_, some e) => ([], some e)

/-- ResolveFile: copy the plain fields, install the globals in the scope,
resolve each request, default the file timeouts; any error yields the zero
File. -/
def ResolveFile (in0 : RawFile) : SpecFile × Option String :=
  let scope := { NewScope with Global := in0.vars }
  match resolveReqsGo in0.requests scope with
  | (_, some e) => (zeroSpecFile, some e)
  | (rs, none) =>
    ({ name := in0.name
       vars := in0.vars
       prompts := resolvePromptsGo in0.prompts
       requests := rs
       noRedirect := in0.noRedirect
       timeout := if in0.timeout = 0 then DefaultTimeout else in0.timeout
       connectionTimeout :=
         if in0.connectionTimeout = 0 then DefaultConnectionTimeout
         else in0.connectionTimeout }, none)

theorem resolveRequest_timeouts (r : RawRequest) (sc : Scope)
    (h : (resolveRequest r sc).2 = none) :
    (resolveRequest r sc).1.timeout =
      (if r.timeout = 0 then DefaultTimeout else r.timeout) ∧
    (resolveRequest r sc).1.connectionTimeout =
      (if r.connectionTimeout = 0 then DefaultConnectionTimeout
       else r.connectionTimeout) := by
  revert h
  unfold resolveRequest resolveRequestTail
  repeat' split
  all_goals intro h
  all_goals simp at h
  all_goals constructor <;> simp [rrFinish, *]

theorem resolveReqsGo_success :
    ∀ (rs : List RawRequest) (sc : Scope) (out : List SpecRequest),
      resolveReqsGo rs sc = (out, none) →
      out.length = rs.length ∧
      ∀ i, i < rs.length →
        (resolveRequest (rs.getD i zeroRawRequest) sc).2 = none ∧
        out.getD i zeroSpecRequest =
          (resolveRequest (rs.getD i zeroRawRequest) sc).1 := by
  intro rs
  induction rs with
  | nil =>
    intro sc out h
    unfold resolveReqsGo at h
    injection h with h1 h2
    subst h1
    exact ⟨rfl, fun i hi => absurd hi (by simp)⟩
  | cons r rest ih =>
    intro sc out h
    unfold resolveReqsGo at h
    split at h
    · injection h with h1 h2
      exact absurd h2 (by simp)
    · rename_i rr heq
      split at h
      · rename_i rs2 heq2
        injection h with h1 h2
        subst h1
        have ihr := ih sc rs2 heq2
        refine ⟨by simp [ihr.1], ?_⟩
        intro i hi
        cases i with
        | zero =>
          refine ⟨?_, ?_⟩
          · show (resolveRequest r sc).2 = none
            rw [heq]
          · show (rr :: rs2).getD 0 zeroSpecRequest = (resolveRequest r sc).1
            rw [heq]
            rfl
        | succ j =>
          have hj : j < rest.length := by simpa using Nat.lt_of_succ_lt_succ hi
          exact (ihr.2 j hj)
      · injection h with h1 h2
        exact absurd h2 (by simp)

/-- Claim C2: for every raw file on which ResolveFile succeeds, the
file-level timeout and every resolved request's timeout equal 30 seconds
when the raw value was zero and the raw value otherwise, and the
connection timeout equals 10 seconds when the raw value was zero and the
raw value otherwise. -/
theorem claim_c2_default_timeouts (f : RawFile)
    (h : (ResolveFile f).2 = none) :
    (ResolveFile f).1.timeout =
      (if f.timeout = 0 then DefaultTimeout else f.timeout) ∧
    (ResolveFile f).1.connectionTimeout =
      (if f.connectionTimeout = 0 then DefaultConnectionTimeout
       else f.connectionTimeout) ∧
    ∀ i, i < (ResolveFile f).1.requests.length →
      ((ResolveFile f).1.requests.getD i zeroSpecRequest).timeout =
        (if (f.requests.getD i zeroRawRequest).timeout = 0 then DefaultTimeout
         else (f.requests.getD i zeroRawRequest).timeout) ∧
      ((ResolveFile f).1.requests.getD i zeroSpecRequest).connectionTimeout =
        (if (f.requests.getD i zeroRawRequest).connectionTimeout = 0 then
          DefaultConnectionTimeout
         else (f.requests.getD i zeroRawRequest).connectionTimeout) := by
  have hchar : ∃ rs,
      resolveReqsGo f.requests { NewScope with Global := f.vars } =
        (rs, none) ∧
      (ResolveFile f).1.timeout =
        (if f.timeout = 0 then DefaultTimeout else f.timeout) ∧
      (ResolveFile f).1.connectionTimeout =
        (if f.connectionTimeout = 0 then DefaultConnectionTimeout
         else f.connectionTimeout) ∧
      (ResolveFile f).1.requests = rs := by
    revert h
    unfold ResolveFile
    simp only []
    split
    · intro h
      exact absurd h (by simp)
    · rename_i rs heq
      intro h
      exact ⟨rs, heq, rfl, rfl, rfl⟩
  obtain ⟨rs, heq, ht, hct, hreq⟩ := hchar
  have hloop := resolveReqsGo_success f.requests
    { NewScope with Global := f.vars } rs heq
  refine ⟨ht, hct, ?_⟩
  intro i hi
  rw [hreq] at hi
  have hi2 : i < f.requests.length := by rw [← hloop.1]; exact hi
  have hone := hloop.2 i hi2
  have htm := resolveRequest_timeouts (f.requests.getD i zeroRawRequest)
    { NewScope with Global := f.vars } hone.1
  rw [hreq, hone.2]
  exact htm

/-- The raw file of the C2 witness: one request with a 5-second timeout and
no connection timeout. -/
def c2file : RawFile :=
  { requests := [{ method := "GET", url := "https://x/a", timeout := 5000000000 }] }

theorem claim_c2_default_timeouts_witness :
    (ResolveFile c2file).2 = none ∧
    ((ResolveFile c2file).1.timeout =
      (if c2file.timeout = 0 then DefaultTimeout else c2file.timeout) ∧
    (ResolveFile c2file).1.connectionTimeout =
      (if c2file.connectionTimeout = 0 then DefaultConnectionTimeout
       else c2file.connectionTimeout) ∧
    ∀ i, i < (ResolveFile c2file).1.requests.length →
      ((ResolveFile c2file).1.requests.getD i zeroSpecRequest).timeout =
        (if (c2file.requests.getD i zeroRawRequest).timeout = 0 then
          DefaultTimeout
         else (c2file.requests.getD i zeroRawRequest).timeout) ∧
      ((ResolveFile c2file).1.requests.getD i
          zeroSpecRequest).connectionTimeout =
        (if (c2file.requests.getD i zeroRawRequest).connectionTimeout = 0 then
          DefaultConnectionTimeout
         else (c2file.requests.getD i zeroRawRequest).connectionTimeout)) :=
  ⟨by decide, claim_c2_default_timeouts c2file (by decide)⟩

/-- The key of the first template reference whose key is absent from its
scope map, if any. -/
def firstMissing : List Seg → Scope → Option String
  | [], _ => none
  | Seg.lit _ :: rest, sc => firstMissing rest sc
  | Seg.ref g key :: rest, sc =>
    match mapLookup (if g then sc.Global else sc.Local) key with
    | some _ => firstMissing rest sc
    | none => some key

theorem tmplExecGo_firstMissing :
    ∀ (segs : List Seg) (sc : Scope) (k : String),
      firstMissing segs sc = some k →
      tmplExecGo segs sc =
        ("", some ("map has no entry for key \x22" ++ k ++ "\x22")) := by
  intro segs
  induction segs with
  | nil => intro sc k h; exact absurd h (by simp [firstMissing])
  | cons s rest ih =>
    intro sc k h
    cases s with
    | lit t =>
      have h2 : firstMissing rest sc = some k := h
      rw [show tmplExecGo (Seg.lit t :: rest) sc =
        (match tmplExecGo rest sc with
         | (out, none) => (t ++ out, none)
         | r => ("", r.2)) from rfl]
      rw [ih sc k h2]
    | ref g key =>
      rw [show tmplExecGo (Seg.ref g key :: rest) sc =
        (match mapLookup (if g then sc.Global else sc.Local) key with
         | some v =>
           match tmplExecGo rest sc with
           | (out, none) => (v ++ out, none)
           | r => ("", r.2)
         | none =>
           ("", some ("map has no entry for key \x22" ++ key ++ "\x22")))
        from rfl]
      have h2 : (match mapLookup (if g then sc.Global else sc.Local) key with
          | some _ => firstMissing rest sc
          | none => some key) = some k := h
      cases hlk : mapLookup (if g then sc.Global else sc.Local) key with
      | some v =>
        rw [hlk] at h2
        rw [ih sc k h2]
      | none =>
        rw [hlk] at h2
        have hk : key = k := by
          injection h2 with h3
        rw [hk]

/-- The template engine's missing-key message for key k. -/
def missingKeyMsg (k : String) : String :=
  "map has no entry for key \x22" ++ k ++ "\x22"

theorem firstMissing_none_exec :
    ∀ (segs : List Seg) (sc : Scope),
      firstMissing segs sc = none → (tmplExecGo segs sc).2 = none := by
  intro segs
  induction segs with
  | nil => intro sc _; rfl
  | cons s rest ih =>
    intro sc h
    cases s with
    | lit t =>
      have h2 : firstMissing rest sc = none := h
      have h3 := ih sc h2
      cases he : tmplExecGo rest sc with
      | mk out e =>
        rw [he] at h3
        cases e with
        | some e2 => simp at h3
        | none =>
          rw [show tmplExecGo (Seg.lit t :: rest) sc =
            (match tmplExecGo rest sc with
             | (out, none) => (t ++ out, none)
             | r => ("", r.2)) from rfl, he]
    | ref g key =>
      have h2 : (match mapLookup (if g then sc.Global else sc.Local) key with
          | some _ => firstMissing rest sc
          | none => some key) = none := h
      rw [show tmplExecGo (Seg.ref g key :: rest) sc =
        (match mapLookup (if g then sc.Global else sc.Local) key with
         | some v =>
           match tmplExecGo rest sc with
           | (out, none) => (v ++ out, none)
           | r => ("", r.2)
         | none =>
           ("", some ("map has no entry for key \x22" ++ key ++ "\x22")))
        from rfl]
      cases hlk : mapLookup (if g then sc.Global else sc.Local) key with
      | some v =>
        rw [hlk] at h2
        have h3 := ih sc (show firstMissing rest sc = none from h2)
        cases he : tmplExecGo rest sc with
        | mk out e =>
          rw [he] at h3
          cases e with
          | some e2 => simp at h3
          | none => rfl
      | none =>
        rw [hlk] at h2
        exact absurd (show some key = (none : Option String) from h2)
          (by simp)

/-- The key of the first missing template reference across a list of
name/value entries, the value templates taken in list order: an entry
whose template does not parse, or whose first problem is not a missing
key, yields nothing. -/
def entriesMissing : List (String × String) → Scope → Option String
  | [], _ => none
  | pr :: rest, sc =>
    match tmplParse pr.2 with
    | none => none
    | some segs =>
      match firstMissing segs sc with
      | some k => some k
      | none => entriesMissing rest sc

theorem resolveVarsGo_missing (rname : String) :
    ∀ (entries : List (String × String)) (sc : Scope) (acc : VarMap)
      (k : String),
      entriesMissing entries sc = some k →
      resolveVarsGo rname entries sc acc =
        ([], some
          ("failed to execute request variable templating for request "
            ++ rname ++ ": " ++ missingKeyMsg k)) := by
  intro entries
  induction entries with
  | nil => intro sc acc k h; exact absurd h (by simp [entriesMissing])
  | cons pr rest ih =>
    intro sc acc k h
    have h2 : (match tmplParse pr.2 with
        | none => none
        | some segs =>
          match firstMissing segs sc with
          | some k2 => some k2
          | none => entriesMissing rest sc) = some k := h
    rw [show resolveVarsGo rname (pr :: rest) sc acc =
      (match tmplParse pr.2 with
       | none => ([], some ("invalid template syntax in var " ++ pr.1))
       | some segs =>
         match tmplExecGo segs sc with
         | (out, none) => resolveVarsGo rname rest sc (mapSet acc pr.1 out)
         | (_, some e) =>
           ([], some
             ("failed to execute request variable templating for request "
               ++ rname ++ ": " ++ e))) from rfl]
    cases hp : tmplParse pr.2 with
    | none =>
      rw [hp] at h2
      exact absurd (show (none : Option String) = some k from h2) (by simp)
    | some segs =>
      rw [hp] at h2
      simp only []
      have h3 : (match firstMissing segs sc with
          | some k2 => some k2
          | none => entriesMissing rest sc) = some k := h2
      cases hm : firstMissing segs sc with
      | some k2 =>
        rw [hm] at h3
        have hk : k2 = k := Option.some.inj (show some k2 = some k from h3)
        subst hk
        rw [tmplExecGo_firstMissing segs sc k2 hm]
        rfl
      | none =>
        rw [hm] at h3
        have h4 : entriesMissing rest sc = some k := h3
        have hex := firstMissing_none_exec segs sc hm
        cases he : tmplExecGo segs sc with
        | mk out e =>
          rw [he] at hex
          cases e with
          | some e2 => simp at hex
          | none =>
            exact ih sc (mapSet acc pr.1 out) k h4

theorem resolveHeadersGo_missing (rname : String) :
    ∀ (entries : List (String × String)) (sc : Scope) (acc : VarMap)
      (k : String),
      entriesMissing entries sc = some k →
      resolveHeadersGo rname entries sc acc =
        ([], some
          ("failed to execute request header templating for request "
            ++ rname ++ ": " ++ missingKeyMsg k)) := by
  intro entries
  induction entries with
  | nil => intro sc acc k h; exact absurd h (by simp [entriesMissing])
  | cons pr rest ih =>
    intro sc acc k h
    have h2 : (match tmplParse pr.2 with
        | none => none
        | some segs =>
          match firstMissing segs sc with
          | some k2 => some k2
          | none => entriesMissing rest sc) = some k := h
    rw [show resolveHeadersGo rname (pr :: rest) sc acc =
      (match tmplParse pr.2 with
       | none => ([], some ("invalid template syntax in header " ++ pr.1))
       | some segs =>
         match tmplExecGo segs sc with
         | (out, none) => resolveHeadersGo rname rest sc (mapSet acc pr.1 out)
         | (_, some e) =>
           ([], some
             ("failed to execute request header templating for request "
               ++ rname ++ ": " ++ e))) from rfl]
    cases hp : tmplParse pr.2 with
    | none =>
      rw [hp] at h2
      exact absurd (show (none : Option String) = some k from h2) (by simp)
    | some segs =>
      rw [hp] at h2
      simp only []
      have h3 : (match firstMissing segs sc with
          | some k2 => some k2
          | none => entriesMissing rest sc) = some k := h2
      cases hm : firstMissing segs sc with
      | some k2 =>
        rw [hm] at h3
        have hk : k2 = k := Option.some.inj (show some k2 = some k from h3)
        subst hk
        rw [tmplExecGo_firstMissing segs sc k2 hm]
        rfl
      | none =>
        rw [hm] at h3
        have h4 : entriesMissing rest sc = some k := h3
        have hex := firstMissing_none_exec segs sc hm
        cases he : tmplExecGo segs sc with
        | mk out e =>
          rw [he] at hex
          cases e with
          | some e2 => simp at hex
          | none =>
            exact ih sc (mapSet acc pr.1 out) k h4

/-- The resolved request variables resolveRequest carries forward: the
vars-loop output when the request has variables, nil otherwise. -/
def rrVarsOut (r : RawRequest) (sc : Scope) : VarMap :=
  if 0 < r.vars.length then (resolveVarsGo r.name r.vars sc []).1 else []

/-- The scope the later stages of resolveRequest run in: the incoming scope
with the resolved request variables installed as the local map when the
request has variables. -/
def rrScope (r : RawRequest) (sc : Scope) : Scope :=
  if 0 < r.vars.length then
    { sc with Local := (resolveVarsGo r.name r.vars sc []).1 }
  else sc

theorem resolveRequest_vars_ok (r : RawRequest) (sc : Scope)
    (hvok : (resolveVarsGo r.name r.vars sc []).2 = none) :
    resolveRequest r sc =
      resolveRequestTail r (rrScope r sc) (rrVarsOut r sc) := by
  unfold resolveRequest rrScope rrVarsOut
  by_cases h : 0 < r.vars.length
  · rw [if_pos h, if_pos h, if_pos h]
    cases hres : resolveVarsGo r.name r.vars sc [] with
    | mk rv e =>
      rw [hres] at hvok
      cases e with
      | some e2 => simp at hvok
      | none => rfl
  · rw [if_neg h, if_neg h, if_neg h]

theorem resolveRequest_missing_vars (r : RawRequest) (sc : Scope)
    (k : String) (hlen : 0 < r.vars.length)
    (hm : entriesMissing r.vars sc = some k) :
    resolveRequest r sc =
      (zeroSpecRequest,
       some ("failed to execute request variable templating for request "
         ++ r.name ++ ": " ++ missingKeyMsg k)) := by
  unfold resolveRequest
  rw [if_pos hlen]
  rw [resolveVarsGo_missing r.name r.vars sc [] k hm]

theorem resolveRequest_missing_headers (r : RawRequest) (sc : Scope)
    (k : String)
    (hvok : (resolveVarsGo r.name r.vars sc []).2 = none)
    (hm : entriesMissing r.headers (rrScope r sc) = some k) :
    resolveRequest r sc =
      (zeroSpecRequest,
       some ("failed to execute request header templating for request "
         ++ r.name ++ ": " ++ missingKeyMsg k)) := by
  rw [resolveRequest_vars_ok r sc hvok]
  unfold resolveRequestTail
  rw [resolveHeadersGo_missing r.name r.headers (rrScope r sc)
    [] k hm]

theorem resolveRequest_missing_url (r : RawRequest) (sc : Scope)
    (segs : List Seg) (k : String)
    (hvok : (resolveVarsGo r.name r.vars sc []).2 = none)
    (hhok : (resolveHeadersGo r.name r.headers (rrScope r sc) []).2 = none)
    (hurl : tmplParse r.url = some segs)
    (hmiss : firstMissing segs (rrScope r sc) = some k) :
    resolveRequest r sc =
      (zeroSpecRequest,
       some ("failed to execute URL templating for request " ++ r.name
         ++ ": " ++ missingKeyMsg k)) := by
  rw [resolveRequest_vars_ok r sc hvok]
  unfold resolveRequestTail
  cases hh : resolveHeadersGo r.name r.headers (rrScope r sc) [] with
  | mk rh e =>
    rw [hh] at hhok
    cases e with
    | some e2 => simp at hhok
    | none =>
      simp only []
      unfold rrURL
      rw [hurl]
      simp only []
      rw [tmplExecGo_firstMissing segs (rrScope r sc) k hmiss]
      rfl

theorem resolveRequest_missing_body (r : RawRequest) (sc : Scope)
    (segs : List Seg) (k : String)
    (hvok : (resolveVarsGo r.name r.vars sc []).2 = none)
    (hhok : (resolveHeadersGo r.name r.headers (rrScope r sc) []).2 = none)
    (huok : (rrURL r (rrScope r sc)).2 = none)
    (hbody : tmplParse (r.body.getD "") = some segs)
    (hmiss : firstMissing segs (rrScope r sc) = some k) :
    resolveRequest r sc =
      (zeroSpecRequest,
       some ("failed to execute templating for request " ++ r.name
         ++ " body: " ++ missingKeyMsg k)) := by
  rw [resolveRequest_vars_ok r sc hvok]
  unfold resolveRequestTail
  cases hh : resolveHeadersGo r.name r.headers (rrScope r sc) [] with
  | mk rh e =>
    rw [hh] at hhok
    cases e with
    | some e2 => simp at hhok
    | none =>
      simp only []
      cases hu : rrURL r (rrScope r sc) with
      | mk u eu =>
        rw [hu] at huok
        cases eu with
        | some e2 => simp at huok
        | none =>
          simp only []
          unfold rrBody
          rw [hbody]
          simp only []
          rw [tmplExecGo_firstMissing segs (rrScope r sc) k hmiss]
          rfl

/-- The resolver error for a missing key at each reference location:
0 a request variable, 1 a header, 2 the URL, 3 the body. -/
def missingSiteMsg (loc : Nat) (rname k : String) : String :=
  match loc with
  | 0 => "failed to execute request variable templating for request "
      ++ rname ++ ": " ++ missingKeyMsg k
  | 1 => "failed to execute request header templating for request "
      ++ rname ++ ": " ++ missingKeyMsg k
  | 2 => "failed to execute URL templating for request " ++ rname ++ ": "
      ++ missingKeyMsg k
  | _ => "failed to execute templating for request " ++ rname ++ " body: "
      ++ missingKeyMsg k

/-- A missing template key k at location loc of the request (0 a request
variable, 1 a header, 2 the URL, 3 the body), the stages before that
location resolving cleanly, which pins it as the first failure. -/
def reqMissingAt (r : RawRequest) (sc : Scope) (loc : Nat) (k : String) :
    Prop :=
  match loc with
  | 0 => 0 < r.vars.length ∧ entriesMissing r.vars sc = some k
  | 1 => (resolveVarsGo r.name r.vars sc []).2 = none ∧
      entriesMissing r.headers (rrScope r sc) = some k
  | 2 => (resolveVarsGo r.name r.vars sc []).2 = none ∧
      (resolveHeadersGo r.name r.headers (rrScope r sc) []).2 = none ∧
      ∃ segs, tmplParse r.url = some segs ∧
        firstMissing segs (rrScope r sc) = some k
  | 3 => (resolveVarsGo r.name r.vars sc []).2 = none ∧
      (resolveHeadersGo r.name r.headers (rrScope r sc) []).2 = none ∧
      (rrURL r (rrScope r sc)).2 = none ∧
      ∃ segs, tmplParse (r.body.getD "") = some segs ∧
        firstMissing segs (rrScope r sc) = some k
  | _ => False

theorem resolveRequest_missingAt (r : RawRequest) (sc : Scope) (loc : Nat)
    (k : String) (h : reqMissingAt r sc loc k) :
    resolveRequest r sc =
      (zeroSpecRequest, some (missingSiteMsg loc r.name k)) := by
  rcases loc with _ | _ | _ | _ | n
  · exact resolveRequest_missing_vars r sc k h.1 h.2
  · exact resolveRequest_missing_headers r sc k h.1 h.2
  · obtain ⟨h1, h2, segs, h3, h4⟩ := h
    exact resolveRequest_missing_url r sc segs k h1 h2 h3 h4
  · obtain ⟨h1, h2, h3, segs, h4, h5⟩ := h
    exact resolveRequest_missing_body r sc segs k h1 h2 h3 h4 h5
  · exact h.elim

theorem resolveReqsGo_error_at :
    ∀ (rs : List RawRequest) (sc : Scope) (i : Nat) (e : String),
      i < rs.length →
      (∀ j, j < i → (resolveRequest (rs.getD j zeroRawRequest) sc).2 = none) →
      (resolveRequest (rs.getD i zeroRawRequest) sc).2 = some e →
      resolveReqsGo rs sc =
        ([], some ("could not resolve request "
          ++ (rs.getD i zeroRawRequest).name ++ ": " ++ e)) := by
  intro rs
  induction rs with
  | nil => intro sc i e hi _ _; exact absurd hi (by simp)
  | cons r rest ih =>
    intro sc i e hi hearlier hie
    unfold resolveReqsGo
    cases i with
    | zero =>
      have hie0 : (resolveRequest r sc).2 = some e := hie
      split
      · rename_i e2 heq
        rw [heq] at hie0
        have he2 : e2 = e := by injection hie0
        rw [he2]
        rfl
      · rename_i rr heq
        rw [heq] at hie0
        exact absurd hie0 (by simp)
    | succ j =>
      have h0 : (resolveRequest r sc).2 = none := hearlier 0 (Nat.succ_pos j)
      split
      · rename_i e2 heq
        rw [heq] at h0
        exact absurd h0 (by simp)
      · rename_i rr heq
        have hrec := ih sc j e (by simpa using Nat.lt_of_succ_lt_succ hi)
          (fun m hm => hearlier (m + 1) (Nat.succ_lt_succ hm)) hie
        rw [hrec]
        rfl

theorem ResolveFile_error (f : RawFile) (e : String)
    (he : (resolveReqsGo f.requests { NewScope with Global := f.vars }).2 =
      some e) :
    ResolveFile f = (zeroSpecFile, some e) := by
  unfold ResolveFile
  simp only []
  split
  · rename_i e2 heq
    rw [heq] at he
    have : e2 = e := by injection he
    rw [this]
  · rename_i rs heq
    rw [heq] at he
    exact absurd he (by simp)

/-- Claim C3: when a template in a request variable, header, URL, or body
references a key absent from the named scope — every earlier request and
every earlier stage of this request resolving cleanly, which pins this as
the first failure — ResolveFile returns the zero File together with an
error naming the request and ending in the template engine's missing-key
message, which names the missing variable.  loc selects the location of
the reference: 0 a request variable, 1 a header, 2 the URL, 3 the body.
spec-modelled in part: the Scope type and the template engine are modelled
from the spec as described at their definitions. -/
theorem claim_c3_unknown_variable (f : RawFile) (i loc : Nat) (k : String)
    (hi : i < f.requests.length)
    (hearlier : ∀ j, j < i →
      (resolveRequest (f.requests.getD j zeroRawRequest)
        { NewScope with Global := f.vars }).2 = none)
    (hmiss : reqMissingAt (f.requests.getD i zeroRawRequest)
      { NewScope with Global := f.vars } loc k) :
    ResolveFile f =
      (zeroSpecFile,
       some ("could not resolve request "
         ++ (f.requests.getD i zeroRawRequest).name ++ ": "
         ++ missingSiteMsg loc (f.requests.getD i zeroRawRequest).name k)) := by
  have hreq := resolveRequest_missingAt (f.requests.getD i zeroRawRequest)
    { NewScope with Global := f.vars } loc k hmiss
  have hloop := resolveReqsGo_error_at f.requests
    { NewScope with Global := f.vars } i
    (missingSiteMsg loc (f.requests.getD i zeroRawRequest).name k)
    hi hearlier (by rw [hreq])
  exact ResolveFile_error f _ (by rw [hloop])

/-- The C3 witness file with the missing key in a request variable. -/
def c3vfile : RawFile :=
  { vars := [("base", "https://x")]
    requests := [{ name := "one", method := "GET", url := "https://x", vars := [("a", "\x7b\x7b .Global.missing \x7d\x7d")] }] }

/-- The C3 witness file with the missing key in a header. -/
def c3hfile : RawFile :=
  { vars := [("base", "https://x")]
    requests := [{ name := "one", method := "GET", url := "https://x", headers := [("H", "\x7b\x7b .Global.missing \x7d\x7d")] }] }

/-- The C3 witness file with the missing key in the URL. -/
def c3file : RawFile :=
  { vars := [("base", "https://x")]
    requests := [{ name := "one", method := "GET", url := "\x7b\x7b .Global.missing \x7d\x7d/x" }] }

/-- The C3 witness file with the missing key in the body. -/
def c3bfile : RawFile :=
  { vars := [("base", "https://x")]
    requests := [{ name := "one", method := "GET", url := "https://x", body := some "x=\x7b\x7b .Local.missing \x7d\x7d" }] }

theorem claim_c3_unknown_variable_witness :
    ResolveFile c3vfile =
      (zeroSpecFile,
       some ("could not resolve request "
         ++ (c3vfile.requests.getD 0 zeroRawRequest).name ++ ": "
         ++ missingSiteMsg 0 (c3vfile.requests.getD 0 zeroRawRequest).name
           "missing")) ∧
    ResolveFile c3hfile =
      (zeroSpecFile,
       some ("could not resolve request "
         ++ (c3hfile.requests.getD 0 zeroRawRequest).name ++ ": "
         ++ missingSiteMsg 1 (c3hfile.requests.getD 0 zeroRawRequest).name
           "missing")) ∧
    ResolveFile c3file =
      (zeroSpecFile,
       some ("could not resolve request "
         ++ (c3file.requests.getD 0 zeroRawRequest).name ++ ": "
         ++ missingSiteMsg 2 (c3file.requests.getD 0 zeroRawRequest).name
           "missing")) ∧
    ResolveFile c3bfile =
      (zeroSpecFile,
       some ("could not resolve request "
         ++ (c3bfile.requests.getD 0 zeroRawRequest).name ++ ": "
         ++ missingSiteMsg 3 (c3bfile.requests.getD 0 zeroRawRequest).name
           "missing")) :=
  ⟨claim_c3_unknown_variable c3vfile 0 0 "missing" (by decide)
      (fun j hj => absurd hj (by simp)) ⟨by decide, by decide⟩,
   claim_c3_unknown_variable c3hfile 0 1 "missing" (by decide)
      (fun j hj => absurd hj (by simp)) ⟨by decide, by decide⟩,
   claim_c3_unknown_variable c3file 0 2 "missing" (by decide)
      (fun j hj => absurd hj (by simp))
      ⟨by decide, by decide,
        ⟨[Seg.lit "", Seg.ref true "missing", Seg.lit "/x"],
          by decide, by decide⟩⟩,
   claim_c3_unknown_variable c3bfile 0 3 "missing" (by decide)
      (fun j hj => absurd hj (by simp))
      ⟨by decide, by decide, by decide,
        ⟨[Seg.lit "x=", Seg.ref false "missing", Seg.lit ""],
          by decide, by decide⟩⟩⟩

end Req

namespace Req

/-!
## Renderer (package spec, renderer revision) and the round trip
-/

/-- Prompt.String: the prompt directive line. -/
def promptStr (p : SpecPrompt) : String :=
  if p.description ≠ "" then
    "@prompt " ++ p.name ++ " " ++ p.description ++ "\n"
  else "@prompt " ++ p.name ++ "\n"

/-- The sorted variable lines of File.String / Request.String: one prefixed
key = value line per key in sorted order. -/
def varsLines (pre : String) (m : VarMap) : String :=
  String.join ((sortedKeys m).map fun k =>
    pre ++ k ++ " = " ++ (mapLookup m k).getD "" ++ "\n")

/-- The sorted header lines of Request.String. -/
def headerLines (m : VarMap) : String :=
  String.join ((sortedKeys m).map fun k =>
    k ++ ": " ++ (mapLookup m k).getD "" ++ "\n")

/-- Request.String (renderer revision).  The body-present test r.Body != nil
is modelled as nonemptiness: the model does not distinguish a nil byte
slice from an empty one.  %v of the true NoRedirect renders true. -/
def requestStr (r : SpecRequest) : String :=
  (if r.comment ≠ "" then "### " ++ r.comment ++ "\n" else "###\n") ++
  (if r.name ≠ "" then "# @name = " ++ r.name ++ "\n" else "") ++
  String.join (r.prompts.map promptStr) ++
  varsLines "# @" r.vars ++
  (if r.timeout ≠ 0 then
    "# @timeout = " ++ goFormatDuration r.timeout ++ "\n" else "") ++
  (if r.connectionTimeout ≠ 0 then
    "# @connection-timeout = " ++ goFormatDuration r.connectionTimeout ++ "\n"
   else "") ++
  (if r.noRedirect then "# @no-redirect = true\n" else "") ++
  (if r.httpVersion ≠ "" then
    r.method ++ " " ++ r.url ++ " " ++ r.httpVersion ++ "\n"
   else r.method ++ " " ++ r.url ++ "\n") ++
  headerLines r.headers ++
  (if r.body ≠ "" ∨ r.bodyFile ≠ "" ∨ r.responseFile ≠ "" then "\n"
   else "") ++
  (if r.bodyFile ≠ "" then "< " ++ r.bodyFile ++ "\n" else "") ++
  (if r.body ≠ "" then r.body ++ "\n" else "") ++
  (if r.responseFile ≠ "" then "> " ++ r.responseFile ++ "\n" else "")

/-- File.String (renderer revision). -/
def fileStr (f : SpecFile) : String :=
  (if f.name ≠ "" then "@name = " ++ f.name ++ "\n\n" else "") ++
  String.join (f.prompts.map promptStr) ++
  varsLines "@" f.vars ++
  (if f.timeout ≠ 0 then
    "@timeout = " ++ goFormatDuration f.timeout ++ "\n" else "") ++
  (if f.connectionTimeout ≠ 0 then
    "@connection-timeout = " ++ goFormatDuration f.connectionTimeout ++ "\n"
   else "") ++
  (if f.noRedirect then "@no-redirect = true\n" else "") ++
  "\n" ++
  String.join (f.requests.map requestStr)

/-- requestEqual: fieldwise equality with map equality on vars and
headers. -/
def requestEqual (a b : SpecRequest) : Bool :=
  mapsEqualB a.vars b.vars && mapsEqualB a.headers b.headers &&
  decide (a.prompts = b.prompts) && decide (a.name = b.name) &&
  decide (a.comment = b.comment) && decide (a.method = b.method) &&
  decide (a.url = b.url) && decide (a.httpVersion = b.httpVersion) &&
  decide (a.bodyFile = b.bodyFile) &&
  decide (a.responseFile = b.responseFile) && decide (a.body = b.body) &&
  decide (a.timeout = b.timeout) &&
  decide (a.connectionTimeout = b.connectionTimeout) &&
  decide (a.noRedirect = b.noRedirect)

/-- slices.EqualFunc with requestEqual. -/
def requestsEqual : List SpecRequest → List SpecRequest → Bool
  | [], [] => true
  | a :: as2, b :: bs => requestEqual a b && requestsEqual as2 bs
  | _, _ => false

/-- Equal: File equality up to the key ordering of the maps. -/
def Equal (a b : SpecFile) : Bool :=
  decide (a.name = b.name) && mapsEqualB a.vars b.vars &&
  decide (a.prompts = b.prompts) && requestsEqual a.requests b.requests &&
  decide (a.timeout = b.timeout) &&
  decide (a.connectionTimeout = b.connectionTimeout) &&
  decide (a.noRedirect = b.noRedirect)

/-- The raw file of the C1 counterexample: no-redirect set, nothing else. -/
def c1raw : RawFile := { noRedirect := true }

/-- Claim C1 (amended): the narrow round-trip that does hold: the resolved
form of the empty raw file (all defaults: 30s timeout, 10s connection
timeout, no redirect disabling) renders to a string that scans, parses and
resolves back to an Equal file.  The general claim fails: rendering any
resolved file with NoRedirect set emits an at-no-redirect directive with a
value, which the syntax does not accept (see the counterexample). -/
theorem claim_c1_round_trip :
    (ResolveFile zeroRawFile).2 = none ∧
    (parseString "" (fileStr (ResolveFile zeroRawFile).1).data).2.1 = false ∧
    (ResolveFile
      (parseString "" (fileStr (ResolveFile zeroRawFile).1).data).1).2 =
      none ∧
    Equal
      (ResolveFile
        (parseString "" (fileStr (ResolveFile zeroRawFile).1).data).1).1
      (ResolveFile zeroRawFile).1 = true := by
  refine ⟨by decide, by decide, by decide, by decide⟩

/-- Claim C1 counterexample: ResolveFile resolves the raw file with
NoRedirect set without error, but parsing the rendering of the resolved
file fails, and the file obtained by resolving the (zero) parse result is
not Equal to the original resolved file. -/
theorem claim_c1_round_trip_counterexample :
    (ResolveFile c1raw).2 = none ∧
    (parseString "" (fileStr (ResolveFile c1raw).1).data).2.1 = true ∧
    Equal
      (ResolveFile
        (parseString "" (fileStr (ResolveFile c1raw).1).data).1).1
      (ResolveFile c1raw).1 = false := by
  refine ⟨by decide, by decide, by decide⟩

end Req
